import Mathlib

/-!
Verification of the `wgctl` package (src/wg.go) of uinta-labs/wg-quick-go.

The Go code reconciles a WireGuard interface's addresses and routes with a
desired configuration, (de)serializes keys in base64, renders the
configuration through a `text/template`, and orchestrates bring-up in `Up`.

Shallow embedding conventions used throughout this file:

* `net.IPNet` values are modelled by the structure `IPNet` (an IPv4 address
  as a `Nat` plus a prefix length).  The Go code keys its diffing maps by the
  canonical `"IP/prefix"` string produced by `net.IPNet.String()`; that
  rendering is injective on well-formed IPv4 values, so maps keyed by the
  canonical string are modelled by maps keyed by the structured value
  directly (`IPNet` for addresses, `Option IPNet` for route destinations,
  `none` standing for a nil `*net.IPNet`, whose `String()` is `"<nil>"`).
* The Go `map[string]int` used as a presence-flag map is modelled by an
  association list updated in place (`setFlag`).  Go's map iteration order
  is unspecified; the model iterates in first-insertion order.  Every
  property proved below is insensitive to the iteration order.
* The kernel (netlink) is modelled by an explicit state: the list of
  addresses (routes) currently on the interface.  `AddrAdd`/`RouteAdd` fail
  (EEXIST) when the entry is already present; `RouteDel` fails (ESRCH) when
  the entry is absent.  Issued kernel mutation calls are recorded in a
  trace, including a final failing call.
-/

set_option maxRecDepth 4000

/-- An IPv4 network: address (as a natural number below `2^32`) plus prefix
length, modelling Go's `net.IPNet`. -/
structure IPNet where
  ip : Nat
  pfx : Nat
deriving DecidableEq, Repr

/-- The network obtained by zeroing the host bits, as `net.ParseCIDR` does
when it parses an `"IP/prefix"` string back into a `*net.IPNet`. -/
def IPNet.maskNet (n : IPNet) : IPNet :=
  ⟨n.ip / 2 ^ (32 - n.pfx) * 2 ^ (32 - n.pfx), n.pfx⟩

/-- A masked (canonical) network: the form in which the Linux kernel stores
and reports route destinations and that `net.ParseCIDR` returns. -/
def IPNet.canonical (n : IPNet) : Prop := n.maskNet = n

instance (n : IPNet) : Decidable n.canonical := by
  unfold IPNet.canonical; infer_instance

/-! ### The presence-flag map (`map[string]int` in the Go source)

`presentAddresses` / `presentRoutes` map a canonical key to `1` (observed
only) or `2` (kept/added). -/

/-- Lookup in the flag map (`_, present := m[k]` / `p := m[k]`). -/
def lookupFlag {κ : Type} [DecidableEq κ] : List (κ × Nat) → κ → Option Nat
  | [], _ => none
  | (k0, v0) :: m, k => if k0 = k then some v0 else lookupFlag m k

/-- Store in the flag map (`m[k] = v`).  Replaces the entry if the key is
present, otherwise appends it. -/
def setFlag {κ : Type} [DecidableEq κ] : List (κ × Nat) → κ → Nat → List (κ × Nat)
  | [], k, v => [(k, v)]
  | (k0, v0) :: m, k, v => if k0 = k then (k0, v) :: m else (k0, v0) :: setFlag m k v

/-- The loop `for _, x := range observed { m[key x] = 1 }`. -/
def initFlagsAux {κ : Type} [DecidableEq κ] : List (κ × Nat) → List κ → List (κ × Nat)
  | m, [] => m
  | m, a :: rest => initFlagsAux (setFlag m a 1) rest

/-- Flag map holding `1` for every observed key. -/
def initFlags {κ : Type} [DecidableEq κ] (s : List κ) : List (κ × Nat) :=
  initFlagsAux [] s

/-- The keys of a flag map. -/
def mkeys {κ : Type} (m : List (κ × Nat)) : List κ := m.map Prod.fst

/-! ### Address reconciliation (`syncAddress`, src/wg.go lines 163-207) -/

/-- A kernel mutation issued on the interface's address set: an
`netlink.AddrAdd` or `netlink.AddrDel` call. -/
inductive AMut where
  | add (a : IPNet)
  | del (a : IPNet)
deriving DecidableEq, Repr

/-- Outcome of an address sync: final kernel address list, the trace of
issued kernel mutation calls, and whether the function returned `nil`. -/
structure ASyncRes where
  kern : List IPNet
  calls : List AMut
  ok : Bool
deriving DecidableEq, Repr

/-- The first loop of `syncAddress`: for each desired address, look the
canonical key up in the flag map, store `2`, skip when present, otherwise
issue `netlink.AddrAdd` (which fails with EEXIST when the address is already
on the link). -/
def addrDesiredLoop : List IPNet → List (IPNet × Nat) → List IPNet → List AMut →
    List (IPNet × Nat) × ASyncRes
  | [], m, s, tr => (m, ⟨s, tr, true⟩)
  | a :: ds, m, s, tr =>
    let present := (lookupFlag m a).isSome
    let m2 := setFlag m a 2
    if present then addrDesiredLoop ds m2 s tr
    else if a ∈ s then (m2, ⟨s, tr ++ [AMut.add a], false⟩)
    else addrDesiredLoop ds m2 (s ++ [a]) (tr ++ [AMut.add a])

/-- The cleanup loop of `syncAddress`: for every flag-map entry with value
`< 2`, `netlink.ParseAddr` the canonical key (which succeeds and preserves
the address for every well-formed IPv4 key, the only keys that occur) and
then — exactly as the source does — call `netlink.AddrAdd` on it, although
the log messages say "delete".  Since such an entry is always already on the
link, the add fails with EEXIST and the error is returned. -/
def addrCleanupLoop : List (IPNet × Nat) → List IPNet → List AMut → ASyncRes
  | [], s, tr => ⟨s, tr, true⟩
  | (k, p) :: m, s, tr =>
    if p < 2 then
      if k ∈ s then ⟨s, tr ++ [AMut.add k], false⟩
      else addrCleanupLoop m (s ++ [k]) (tr ++ [AMut.add k])
    else addrCleanupLoop m s tr

/-- `syncAddress(link, cfg)`: `s` is the kernel's current IPv4 address list
on the link (the result of `netlink.AddrList`), `desired` is `cfg.Address`. -/
def syncAddress (s : List IPNet) (desired : List IPNet) : ASyncRes :=
  let r := addrDesiredLoop desired (initFlags s) s []
  if r.2.ok then addrCleanupLoop r.1 r.2.kern r.2.calls else r.2

/-- 10.0.0.2/24 -/
def n10 : IPNet := ⟨167772162, 24⟩

/-- 192.168.1.1/24 -/
def n192 : IPNet := ⟨3232235777, 24⟩

example : syncAddress [n10, n192] [n10] = ⟨[n10, n192], [AMut.add n192], false⟩ := by decide

example : syncAddress [] [n10] = ⟨[n10], [AMut.add n10], true⟩ := by decide

/-! ### Route reconciliation (`syncRoutes`, src/wg.go lines 209-260)

A route destination read back from the kernel is a `*net.IPNet`, which is
nil for a default route; its key string is then `"<nil>"`.  Keys are
therefore `Option IPNet`, with `none` standing for the nil destination. -/

/-- A route key: the canonical string `r.Dst.String()`. -/
abbrev RKey := Option IPNet

/-- A peer (`wgtypes.Peer`): `syncRoutes` only reads its allowed-IP list. -/
structure WgPeer where
  publicKey : List Nat
  allowedIPs : List IPNet
  endpoint : Option (List Char)
deriving DecidableEq, Repr

/-- `net.ParseCIDR` applied to a route key: fails on `"<nil>"`, and on an
`"IP/prefix"` string returns the network with host bits masked off. -/
def parseCIDR : RKey → Option IPNet
  | none => none
  | some n => some n.maskNet

/-- A kernel mutation issued on the interface's route set: a
`netlink.RouteAdd` or `netlink.RouteDel` call (both always carry a non-nil
destination in this code). -/
inductive RMut where
  | add (n : IPNet)
  | del (n : IPNet)
deriving DecidableEq, Repr

/-- Outcome of a route sync: final kernel route list, the trace of issued
kernel mutation calls, and whether the function returned `nil`. -/
structure RSyncRes where
  kern : List RKey
  calls : List RMut
  ok : Bool
deriving DecidableEq, Repr

/-- Remove the first occurrence of a route from the kernel route list (the
effect of a successful `netlink.RouteDel`). -/
def removeKey {α : Type} [DecidableEq α] : List α → α → List α
  | [], _ => []
  | a :: s, k => if a = k then s else a :: removeKey s k

/-- The double loop of `syncRoutes` over `cfg.Peers` and each peer's
`AllowedIPs` visits the flattened sequence of allowed-IP networks in order,
with identical handling for each element; it is modelled as a single loop
over that flattened list. -/
def desiredRoutes (peers : List WgPeer) : List IPNet :=
  (peers.map WgPeer.allowedIPs).flatten

/-- The desired loop of `syncRoutes`: for each allowed-IP network, look its
key up, store `2`, skip when present, otherwise issue `netlink.RouteAdd`
for the interface with that destination (EEXIST when already present). -/
def routesDesiredLoop : List IPNet → List (RKey × Nat) → List RKey → List RMut →
    List (RKey × Nat) × RSyncRes
  | [], m, s, tr => (m, ⟨s, tr, true⟩)
  | rt :: ds, m, s, tr =>
    let present := (lookupFlag m (some rt)).isSome
    let m2 := setFlag m (some rt) 2
    if present then routesDesiredLoop ds m2 s tr
    else if some rt ∈ s then (m2, ⟨s, tr ++ [RMut.add rt], false⟩)
    else routesDesiredLoop ds m2 (s ++ [some rt]) (tr ++ [RMut.add rt])

/-- The cleanup loop of `syncRoutes`: for every flag-map entry, first
`net.ParseCIDR` the key — before the flag is inspected — returning the error
when it does not parse; then, when the flag is `< 2`, issue
`netlink.RouteDel` for the parsed destination (ESRCH when absent). -/
def routesCleanupLoop : List (RKey × Nat) → List RKey → List RMut → RSyncRes
  | [], s, tr => ⟨s, tr, true⟩
  | (k, p) :: m, s, tr =>
    match parseCIDR k with
    | none => ⟨s, tr, false⟩
    | some rt =>
      if p < 2 then
        if some rt ∈ s then routesCleanupLoop m (removeKey s (some rt)) (tr ++ [RMut.del rt])
        else ⟨s, tr ++ [RMut.del rt], false⟩
      else routesCleanupLoop m s tr

/-- `syncRoutes(link, cfg)`: `s` is the kernel's current IPv4 route list on
the link (the result of `netlink.RouteList`), `peers` is `cfg.Peers`. -/
def syncRoutes (s : List RKey) (peers : List WgPeer) : RSyncRes :=
  let r := routesDesiredLoop (desiredRoutes peers) (initFlags s) s []
  if r.2.ok then routesCleanupLoop r.1 r.2.kern r.2.calls else r.2

/-- 10.0.0.0/24 -/
def n1000 : IPNet := ⟨167772160, 24⟩

/-- 10.1.0.0/24 -/
def n1010 : IPNet := ⟨167837696, 24⟩

/-- The two peers of Scenario C. -/
def demoPeers : List WgPeer :=
  [⟨[1], [n1000], none⟩, ⟨[2], [n1000, n1010], none⟩]

example : desiredRoutes demoPeers = [n1000, n1000, n1010] := by decide

example : syncRoutes [] demoPeers =
    ⟨[some n1000, some n1010], [RMut.add n1000, RMut.add n1010], true⟩ := by decide

/-- 192.168.1.0/24 -/
def n19200 : IPNet := ⟨3232235776, 24⟩

example : syncRoutes [some n19200] demoPeers =
    ⟨[some n1000, some n1010], [RMut.add n1000, RMut.add n1010, RMut.del n19200], true⟩ := by
  decide

example : syncRoutes [none] [] = ⟨[none], [], false⟩ := by decide

/-! ### Orchestration (`Up`, src/wg.go lines 102-161)

`Up` performs a fixed sequence of calls against netlink, the wireguardctrl
client and the two reconcilers.  Each external call's outcome is supplied by
an environment (the kernel/driver oracle); `Up` returns the trace of calls
it issued and the error it returned, with `none` for success.  Errors are
values of an arbitrary type `E` so that "propagated unchanged" is expressed
as returning the very same value. -/

/-- The external calls `Up` can issue, in source order. -/
inductive UpStep where
  | linkByName
  | linkAdd
  | execIpLinkAdd
  | linkByName2
  | linkSetUp
  | wgNew
  | configureDevice
  | syncAddrStep
  | syncRoutesStep
deriving DecidableEq, Repr

/-- Outcome of the first `netlink.LinkByName`: the link exists, the lookup
failed with `netlink.LinkNotFoundError`, or it failed with another error. -/
inductive Lookup1 (E : Type) where
  | found
  | notFound
  | failed (e : E)
deriving DecidableEq, Repr

/-- Environment: the outcome each external call would have (`none` =
success).  The `exec.Command("ip", "link", "add", ...)` result is absent
because the source explicitly ignores it. -/
structure UpEnv (E : Type) where
  lookup1 : Lookup1 E
  linkAddRes : Option E
  lookup2Res : Option E
  setUpRes : Option E
  wgNewRes : Option E
  configureRes : Option E
  syncAddrRes : Option E
  syncRoutesRes : Option E
deriving DecidableEq, Repr

/-- The tail of `Up` from `netlink.LinkSetUp` on: set the link up, create
the wireguardctrl client, push the device configuration, then run the two
reconcilers; stop at the first failure and return its error. -/
def upTail {E : Type} (env : UpEnv E) (pre : List UpStep) : List UpStep × Option E :=
  match env.setUpRes with
  | some e => (pre ++ [UpStep.linkSetUp], some e)
  | none =>
    match env.wgNewRes with
    | some e => (pre ++ [UpStep.linkSetUp, UpStep.wgNew], some e)
    | none =>
      match env.configureRes with
      | some e => (pre ++ [UpStep.linkSetUp, UpStep.wgNew, UpStep.configureDevice], some e)
      | none =>
        match env.syncAddrRes with
        | some e =>
          (pre ++ [UpStep.linkSetUp, UpStep.wgNew, UpStep.configureDevice,
            UpStep.syncAddrStep], some e)
        | none =>
          match env.syncRoutesRes with
          | some e =>
            (pre ++ [UpStep.linkSetUp, UpStep.wgNew, UpStep.configureDevice,
              UpStep.syncAddrStep, UpStep.syncRoutesStep], some e)
          | none =>
            (pre ++ [UpStep.linkSetUp, UpStep.wgNew, UpStep.configureDevice,
              UpStep.syncAddrStep, UpStep.syncRoutesStep], none)

/-- `Up`: look the link up; on `LinkNotFoundError` create it (returning the
`LinkAdd` error on failure), run the ignored `ip link add` command, and look
it up again (returning that error on failure); then continue with
`upTail`.  Any other lookup error is returned at once. -/
def Up {E : Type} (env : UpEnv E) : List UpStep × Option E :=
  match env.lookup1 with
  | Lookup1.failed e => ([UpStep.linkByName], some e)
  | Lookup1.found => upTail env [UpStep.linkByName]
  | Lookup1.notFound =>
    match env.linkAddRes with
    | some e => ([UpStep.linkByName, UpStep.linkAdd], some e)
    | none =>
      match env.lookup2Res with
      | some e =>
        ([UpStep.linkByName, UpStep.linkAdd, UpStep.execIpLinkAdd, UpStep.linkByName2], some e)
      | none => upTail env [UpStep.linkByName, UpStep.linkAdd, UpStep.execIpLinkAdd,
          UpStep.linkByName2]

/-- Refinement reference, following the spec's words: the phases are
ensure-interface (lookup, and on not-found: create + relookup), set-up,
push-device-config (client creation and device configuration), address-sync,
route-sync; the result is the first phase failure. -/
def ensurePhaseSpec {E : Type} (env : UpEnv E) : Option E :=
  match env.lookup1 with
  | Lookup1.failed e => some e
  | Lookup1.found => none
  | Lookup1.notFound =>
    match env.linkAddRes with
    | some e => some e
    | none => env.lookup2Res

/-- Refinement reference, following the spec's words: the error `Up`
reports is the first failure along
ensure-interface → set-up → push-device-config → address-sync → route-sync. -/
def upSpecError {E : Type} (env : UpEnv E) : Option E :=
  (ensurePhaseSpec env).orElse fun _ =>
    (env.setUpRes).orElse fun _ =>
      (env.wgNewRes).orElse fun _ =>
        (env.configureRes).orElse fun _ =>
          (env.syncAddrRes).orElse fun _ => env.syncRoutesRes

/-- Position of each step in the fixed source order. -/
def upStepPos : UpStep → Nat
  | UpStep.linkByName => 0
  | UpStep.linkAdd => 1
  | UpStep.execIpLinkAdd => 2
  | UpStep.linkByName2 => 3
  | UpStep.linkSetUp => 4
  | UpStep.wgNew => 5
  | UpStep.configureDevice => 6
  | UpStep.syncAddrStep => 7
  | UpStep.syncRoutesStep => 8

/-- The ensure-interface phase of `Up` succeeds: the first lookup found the
link, or it reported not-found and both the creation and the second lookup
succeeded. -/
def ensureOkEnv {E : Type} (env : UpEnv E) : Prop :=
  env.lookup1 = Lookup1.found ∨
    (env.lookup1 = Lookup1.notFound ∧ env.linkAddRes = none ∧ env.lookup2Res = none)

example : Up (E := Nat) ⟨Lookup1.found, none, none, none, none, some 7, none, none⟩ =
    ([UpStep.linkByName, UpStep.linkSetUp, UpStep.wgNew, UpStep.configureDevice], some 7) := by
  decide

/-! ### Key codec (`serializeKey` / `ParseKey`, src/wg.go lines 82-94)

`encoding/base64` standard encoding, modelled over byte lists.  Following
Go's decoder: CR and LF are ignored anywhere in the input, padding is
required ('=' to a multiple of four characters), '=' may only appear in the
final quantum, and — as in the default non-strict mode — nonzero trailing
bits in the final quantum are accepted. -/

/-- The standard base64 alphabet. -/
def b64chars : List Char :=
  ("ABCDEFGHIJKLMNOPQRSTUVWXYZabcdefghijklmnopqrstuvwxyz0123456789+/").toList

/-- The character encoding a 6-bit group. -/
def b64c (n : Nat) : Char := b64chars.getD n 'A'

/-- The 6-bit group of an alphabet character; `none` for any other
character (including '='). -/
def b64d (c : Char) : Option Nat := b64chars.indexOf? c

/-- `base64.StdEncoding.EncodeToString`: emit four characters per three
bytes, padding the final quantum with '='. -/
def b64encode : List Nat → List Char
  | [] => []
  | [b1] => [b64c (b1 / 4), b64c (b1 % 4 * 16), '=', '=']
  | [b1, b2] => [b64c (b1 / 4), b64c (b1 % 4 * 16 + b2 / 16), b64c (b2 % 16 * 4), '=']
  | b1 :: b2 :: b3 :: bs =>
    b64c (b1 / 4) :: b64c (b1 % 4 * 16 + b2 / 16) :: b64c (b2 % 16 * 4 + b3 / 64) ::
      b64c (b3 % 64) :: b64encode bs

/-- Decode one full (unpadded) quantum of four characters into three bytes. -/
def b64chunk (c1 c2 c3 c4 : Char) : Option (List Nat) := do
  let x1 ← b64d c1
  let x2 ← b64d c2
  let x3 ← b64d c3
  let x4 ← b64d c4
  pure [x1 * 4 + x2 / 16, x2 % 16 * 16 + x3 / 4, x3 % 4 * 64 + x4]

/-- Decode a CR/LF-free character list quantum by quantum; the final quantum
may carry one or two padding characters. -/
def b64decodeAux : List Char → Option (List Nat)
  | c1 :: c2 :: c3 :: c4 :: rest =>
    if rest.isEmpty ∧ c4 = '=' then
      if c3 = '=' then do
        let x1 ← b64d c1
        let x2 ← b64d c2
        pure [x1 * 4 + x2 / 16]
      else do
        let x1 ← b64d c1
        let x2 ← b64d c2
        let x3 ← b64d c3
        pure [x1 * 4 + x2 / 16, x2 % 16 * 16 + x3 / 4]
    else do
      let b ← b64chunk c1 c2 c3 c4
      let bs ← b64decodeAux rest
      pure (b ++ bs)
  | [] => some []
  | _ => none

/-- `base64.StdEncoding.DecodeString`: drop CR/LF, then decode; `none`
models the `CorruptInputError` failure. -/
def b64decode (s : List Char) : Option (List Nat) :=
  b64decodeAux (s.filter fun c => decide ¬(c = '\x0a' ∨ c = '\x0d'))

/-- `wgtypes.KeyLen`: a WireGuard key is 32 bytes. -/
def keySize : Nat := 32

/-- `serializeKey`: base64-encode the 32 key bytes. -/
def serializeKey (k : List Nat) : List Char := b64encode k

/-- `ParseKey`: base64-decode the text, returning the decode error if any;
then `copy(pkey[:], pkeySlice)` into the zero-initialized 32-byte key —
note the decoded length is never checked, so a short decode leaves the
remaining bytes zero and a long decode is truncated. -/
def ParseKey (s : List Char) : Option (List Nat) :=
  match b64decode s with
  | none => none
  | some bs => some ((bs ++ List.replicate keySize 0).take keySize)

example : b64decode (("AAAA").toList) = some [0, 0, 0] := by decide

example : ParseKey (("AAAA").toList) = some (List.replicate 32 0) := by decide

example : ParseKey (("AAA").toList) = none := by decide

example : b64decode (serializeKey (List.replicate 32 0)) = some (List.replicate 32 0) := by
  decide

/-! ### Configuration model (`Config`, src/wg.go lines 16-39)

The struct embeds `wgtypes.Config` (private key, listen port, peer list —
the members the template reads) and adds the interface-level fields. -/

/-- The desired-state configuration. -/
structure Config where
  privateKey : List Nat
  listenPort : Option Int
  peers : List WgPeer
  address : List IPNet
  dns : List (List Char)
  mtu : Int
  table : Int
  preUp : List Char
  postUp : List Char
  preDown : List Char
  postDown : List Char
  saveConfig : Bool
deriving DecidableEq, Repr

/-! ### The configuration template (`wgtypeTemplateSpec` / `cfgTemplate`,
src/wg.go lines 57-80 and 96-100)

`cfgTemplate` is built at package initialization by
`template.Must(template.New("wg-cfg").Funcs({wgKey: serializeKey}).Parse(wgtypeTemplateSpec))`.
`text/template`'s parser is an external collaborator; the fragment of its
documented grammar exercised by this literal is modelled below: actions are
delimited by double braces with optional `- ` / ` -` trim markers, an action
is a pipeline optionally prefixed by the keywords `range` / `if` /
`end`, a pipeline may open with variable declarations (`$v :=` or
`$a, $b :=`) and is otherwise a `|`-separated sequence of commands whose
operands are fields, variables, string or number literals, the dot, or a
registered function name (only `wgKey` is registered); any other token —
such as a `:=` with no variables before it — is a parse error, and `range`
and `if` actions require a matching `{{end}}`.  `template.Must` panics when
`Parse` fails; a panic during the package's initialization is modelled by
`cfgTemplate = none`, which makes every rendering entry point return
`none`. -/

/-- The left template delimiter character (written numerically). -/
def lbraceC : Char := Char.ofNat 123

/-- The right template delimiter character (written numerically). -/
def rbraceC : Char := Char.ofNat 125

/-- The Go raw-string literal `wgtypeTemplateSpec`, with the delimiter
braces written via `\x7b`/`\x7d` escapes. -/
def wgtypeTemplateSpec : List Char :=
  ("[Interface]\n" ++
   "\x7b\x7b- range := .Address \x7d\x7d\n" ++
   "Address = \x7b\x7b . \x7d\x7d\n" ++
   "\x7b\x7b end \x7d\x7d\n" ++
   "\x7b\x7b- range := .DNS \x7d\x7d\n" ++
   "DNS = \x7b\x7b . \x7d\x7d\n" ++
   "\x7b\x7b end \x7d\x7d\n" ++
   "PrivateKey = \x7b\x7b .PrivateKey | wgKey \x7d\x7d\n" ++
   "\x7b\x7b- if .ListenPort \x7d\x7d\x7b\x7b \"\\n\" \x7d\x7dListenPort = \x7b\x7b .ListenPort \x7d\x7d\x7b\x7b end \x7d\x7d\n" ++
   "\x7b\x7b- if .MTU \x7d\x7d\x7b\x7b \"\\n\" \x7d\x7dMTU = \x7b\x7b .MTU \x7d\x7d\x7b\x7b end \x7d\x7d\n" ++
   "\x7b\x7b- if .Table \x7d\x7d\x7b\x7b \"\\n\" \x7d\x7dTable = \x7b\x7b .Table \x7d\x7d\x7b\x7b end \x7d\x7d\n" ++
   "\x7b\x7b- if .PreUp \x7d\x7d\x7b\x7b \"\\n\" \x7d\x7dPreUp = \x7b\x7b .PreUp \x7d\x7d\x7b\x7b end \x7d\x7d\n" ++
   "\x7b\x7b- if .PostUp \x7d\x7d\x7b\x7b \"\\n\" \x7d\x7dTable = \x7b\x7b .Table \x7d\x7d\x7b\x7b end \x7d\x7d\n" ++
   "\x7b\x7b- if .PreDown \x7d\x7d\x7b\x7b \"\\n\" \x7d\x7dPreDown = \x7b\x7b .PreDown \x7d\x7d\x7b\x7b end \x7d\x7d\n" ++
   "\x7b\x7b- if .PostDown \x7d\x7d\x7b\x7b \"\\n\" \x7d\x7dPostDown = \x7b\x7b .PostDown \x7d\x7d\x7b\x7b end \x7d\x7d\n" ++
   "\x7b\x7b- if .SaveConfig \x7d\x7d\x7b\x7b \"\\n\" \x7d\x7dSaveConfig = \x7b\x7b .SaveConfig \x7d\x7d\x7b\x7b end \x7d\x7d\n" ++
   "\n" ++
   "\x7b\x7b- range .Peers \x7d\x7d\n" ++
   "[Peer]\n" ++
   "PublicKey = \x7b\x7b .PublicKey | wgKey \x7d\x7d\n" ++
   "AllowedIps = \x7b\x7b range $i, $el := .AllowedIPs \x7d\x7d\x7b\x7bif $i\x7d\x7d, \x7b\x7b end \x7d\x7d\x7b\x7b $el \x7d\x7d\x7b\x7b end \x7d\x7d\n" ++
   "\x7b\x7b- if .Endpoint \x7d\x7d\x7b\x7b \"\\n\" \x7d\x7dEndpoint = \x7b\x7b .Endpoint \x7d\x7d\x7b\x7b end \x7d\x7d\n" ++
   "\x7b\x7b- end \x7d\x7d\n").toList

/-- Raw template pieces: literal text and action bodies. -/
inductive RawN where
  | text (s : List Char)
  | action (body : List Char)
deriving DecidableEq, Repr

/-- Collect an action's body up to the closing delimiter; `none` models the
"unclosed action" lex error. -/
def grabAction : Nat → List Char → List Char → Option (List Char × List Char)
  | 0, _, _ => none
  | fuel + 1, cs, acc =>
    match cs with
    | c1 :: c2 :: rest =>
      if c1 = rbraceC ∧ c2 = rbraceC then some (acc.reverse, rest)
      else grabAction fuel (c2 :: rest) (c1 :: acc)
    | _ => none

/-- Emit accumulated text (if any) in front of the given pieces. -/
def flushText (acc : List Char) (ns : List RawN) : List RawN :=
  if acc.isEmpty then ns else RawN.text acc.reverse :: ns

/-- Strip the `- ` / ` -` trim markers from an action body; they only
affect surrounding whitespace, not parsing. -/
def trimMarkers (body : List Char) : List Char :=
  let b1 := match body with
    | '-' :: ' ' :: rest => rest
    | _ => body
  match b1.reverse with
  | '-' :: ' ' :: r => r.reverse
  | _ => b1

/-- Split template source into text and action pieces. -/
def splitAux : Nat → List Char → List Char → Option (List RawN)
  | 0, _, _ => none
  | fuel + 1, acc, cs =>
    match cs with
    | [] => some (flushText acc [])
    | c1 :: cs1 =>
      match cs1 with
      | c2 :: cs2 =>
        if c1 = lbraceC ∧ c2 = lbraceC then
          match grabAction (cs2.length + 1) cs2 [] with
          | none => none
          | some (body, rest) =>
            match splitAux fuel [] rest with
            | none => none
            | some ns => some (flushText acc (RawN.action (trimMarkers body) :: ns))
        else splitAux fuel (c1 :: acc) cs1
      | [] => some (flushText (c1 :: acc) [])

/-- Tokens of an action body. -/
inductive Tok where
  | ident (s : List Char)
  | field (s : List Char)
  | dot
  | tvar (s : List Char)
  | strT (s : List Char)
  | num (s : List Char)
  | pipe
  | comma
  | colonEq
  | lparen
  | rparen
deriving DecidableEq, Repr

/-- Space characters inside an action. -/
def isSpaceC (c : Char) : Bool :=
  c == ' ' || c == '\t' || c == '\x0a' || c == '\x0d'

/-- Identifier characters. -/
def isIdentC (c : Char) : Bool := c.isAlpha || c.isDigit || c == '_'

/-- Lex a quoted string literal (after the opening quote), decoding the
escape sequences this grammar fragment supports. -/
def lexStr : Nat → List Char → List Char → Option (List Char × List Char)
  | 0, _, _ => none
  | fuel + 1, cs, acc =>
    match cs with
    | '"' :: rest => some (acc.reverse, rest)
    | '\\' :: e :: rest =>
      if e = 'n' then lexStr fuel rest ('\x0a' :: acc)
      else if e = 't' then lexStr fuel rest ('\t' :: acc)
      else if e = 'r' then lexStr fuel rest ('\x0d' :: acc)
      else if e = '\\' then lexStr fuel rest ('\\' :: acc)
      else if e = '"' then lexStr fuel rest ('"' :: acc)
      else none
    | _ :: _ => lexStr fuel cs.tail (cs.headD ' ' :: acc)
    | [] => none

/-- Tokenize an action body. -/
def tokenizeAction : Nat → List Char → Option (List Tok)
  | 0, _ => none
  | _ + 1, [] => some []
  | fuel + 1, c :: cs =>
    if isSpaceC c then tokenizeAction fuel cs
    else if c = '.' then
      let w := cs.takeWhile isIdentC
      match tokenizeAction fuel (cs.dropWhile isIdentC) with
      | none => none
      | some ts => some ((if w.isEmpty then Tok.dot else Tok.field w) :: ts)
    else if c = '$' then
      let w := cs.takeWhile isIdentC
      match tokenizeAction fuel (cs.dropWhile isIdentC) with
      | none => none
      | some ts => some (Tok.tvar w :: ts)
    else if c = '|' then
      match tokenizeAction fuel cs with
      | none => none
      | some ts => some (Tok.pipe :: ts)
    else if c = ',' then
      match tokenizeAction fuel cs with
      | none => none
      | some ts => some (Tok.comma :: ts)
    else if c = '(' then
      match tokenizeAction fuel cs with
      | none => none
      | some ts => some (Tok.lparen :: ts)
    else if c = ')' then
      match tokenizeAction fuel cs with
      | none => none
      | some ts => some (Tok.rparen :: ts)
    else if c = ':' then
      match cs with
      | '=' :: rest =>
        match tokenizeAction fuel rest with
        | none => none
        | some ts => some (Tok.colonEq :: ts)
      | _ => none
    else if c = '"' then
      match lexStr (cs.length + 1) cs [] with
      | none => none
      | some (v, rest) =>
        match tokenizeAction fuel rest with
        | none => none
        | some ts => some (Tok.strT v :: ts)
    else if c.isDigit then
      match tokenizeAction fuel (cs.dropWhile Char.isDigit) with
      | none => none
      | some ts => some (Tok.num (c :: cs.takeWhile Char.isDigit) :: ts)
    else if c.isAlpha || c = '_' then
      match tokenizeAction fuel (cs.dropWhile isIdentC) with
      | none => none
      | some ts => some (Tok.ident (c :: cs.takeWhile isIdentC) :: ts)
    else none

/-- The keyword `range`. -/
def kwRange : List Char := ("range").toList

/-- The keyword `if`. -/
def kwIf : List Char := ("if").toList

/-- The keyword `end`. -/
def kwEnd : List Char := ("end").toList

/-- The one template function registered through `Funcs`: `wgKey`. -/
def fnWgKey : List Char := ("wgKey").toList

/-- A pipeline command operand. -/
inductive Arg where
  | fieldA (s : List Char)
  | varA (s : List Char)
  | strA (s : List Char)
  | numA (s : List Char)
  | dotA
  | fnA (s : List Char)
deriving DecidableEq, Repr

/-- Classify a token as an operand; identifiers must name a registered
function (`parse` reports "function not defined" otherwise). -/
def operandOf : Tok → Option Arg
  | Tok.field s => some (Arg.fieldA s)
  | Tok.tvar s => some (Arg.varA s)
  | Tok.strT s => some (Arg.strA s)
  | Tok.num s => some (Arg.numA s)
  | Tok.dot => some Arg.dotA
  | Tok.ident s => if s = fnWgKey then some (Arg.fnA s) else none
  | _ => none

/-- Collect a command's operands; stops at `|` or the end of the pipeline,
failing on any non-operand token — in particular on a stray `:=`, which is
"unexpected :=" exactly as in `text/template`'s `pipeline` parser. -/
def parseArgs : Nat → List Tok → Option (List Arg × List Tok)
  | 0, _ => none
  | fuel + 1, toks =>
    match toks with
    | [] => some ([], [])
    | Tok.pipe :: r => some ([], Tok.pipe :: r)
    | t :: r =>
      match operandOf t with
      | none => none
      | some a =>
        match parseArgs fuel r with
        | none => none
        | some (as, r2) => some (a :: as, r2)

/-- Parse the `|`-separated commands of a pipeline; an empty command is the
"missing value" parse error. -/
def parseCmds : Nat → List Tok → Option (List (List Arg))
  | 0, _ => none
  | fuel + 1, toks =>
    match parseArgs (toks.length + 1) toks with
    | none => none
    | some (args, rest) =>
      if args.isEmpty then none
      else
        match rest with
        | [] => some [args]
        | Tok.pipe :: r2 =>
          match parseCmds fuel r2 with
          | none => none
          | some cs => some (args :: cs)
        | _ => none

/-- A parsed pipeline: leading variable declarations plus commands. -/
structure Pipe where
  decls : List (List Char)
  cmds : List (List Arg)
deriving DecidableEq, Repr

/-- A pipeline's declarations: one variable (or, for `range`, two separated
by a comma) followed by `:=`; anything else declares nothing. -/
def grabDecls : List Tok → List (List Char) × List Tok
  | Tok.tvar v :: Tok.colonEq :: rest => ([v], rest)
  | Tok.tvar v :: Tok.comma :: Tok.tvar w :: Tok.colonEq :: rest => ([v, w], rest)
  | toks => ([], toks)

/-- Parse a pipeline. -/
def parsePipeline (toks : List Tok) : Option Pipe :=
  let p := grabDecls toks
  match parseCmds (p.2.length + 1) p.2 with
  | none => none
  | some cs => some ⟨p.1, cs⟩

/-- Parsed template nodes. -/
inductive TNode where
  | text (s : List Char)
  | act (p : Pipe)
  | forRange (p : Pipe) (body : List TNode)
  | cond (p : Pipe) (body : List TNode)

/-- Parse a sequence of pieces until an `{{end}}` (consumed, second
component `true`) or the end of input; `range`/`if` recursively parse their
body and require the terminating `{{end}}`. -/
def parseSeq : Nat → List RawN → Option (List TNode × Bool × List RawN)
  | 0, _ => none
  | _ + 1, [] => some ([], false, [])
  | fuel + 1, RawN.text s :: rest =>
    match parseSeq fuel rest with
    | none => none
    | some (ns, e, r) => some (TNode.text s :: ns, e, r)
  | fuel + 1, RawN.action body :: rest =>
    match tokenizeAction (body.length + 1) body with
    | none => none
    | some toks =>
      match toks with
      | Tok.ident w :: more =>
        if w = kwEnd then
          if more.isEmpty then some ([], true, rest) else none
        else if w = kwRange then
          match parsePipeline more with
          | none => none
          | some p =>
            match parseSeq fuel rest with
            | none => none
            | some (bodyN, e, r) =>
              if e then
                match parseSeq fuel r with
                | none => none
                | some (ns, e2, r2) => some (TNode.forRange p bodyN :: ns, e2, r2)
              else none
        else if w = kwIf then
          match parsePipeline more with
          | none => none
          | some p =>
            match parseSeq fuel rest with
            | none => none
            | some (bodyN, e, r) =>
              if e then
                match parseSeq fuel r with
                | none => none
                | some (ns, e2, r2) => some (TNode.cond p bodyN :: ns, e2, r2)
              else none
        else
          match parsePipeline toks with
          | none => none
          | some p =>
            match parseSeq fuel rest with
            | none => none
            | some (ns, e, r) => some (TNode.act p :: ns, e, r)
      | _ =>
        match parsePipeline toks with
        | none => none
        | some p =>
          match parseSeq fuel rest with
          | none => none
          | some (ns, e, r) => some (TNode.act p :: ns, e, r)

/-- `template.Parse`: split, then parse; a stray `{{end}}` at top level is
an error. -/
def parseTemplate (s : List Char) : Option (List TNode) :=
  match splitAux (s.length + 1) [] s with
  | none => none
  | some raw =>
    match parseSeq (2 * raw.length + 2) raw with
    | none => none
    | some (ns, e, r) => if e = false ∧ r.isEmpty then some ns else none

/-- The package-level `cfgTemplate`.  `template.Must` panics when parsing
fails; the panicked initialization is modelled as `none`. -/
def cfgTemplate : Option (List TNode) := parseTemplate wgtypeTemplateSpec

/-! ### Template execution (`Template.Execute`)

The evaluator below interprets the node forms the parser can produce over a
`Config`.  For this package it is unreachable — `cfgTemplate` never parses —
but it is what `MarshalText` would run on a parsed template. -/

/-- Decimal digits of a natural number. -/
def natChars (n : Nat) : List Char := Nat.toDigits 10 n

/-- Decimal rendering of an integer. -/
def intChars (z : Int) : List Char :=
  if z < 0 then '-' :: natChars z.natAbs else natChars z.natAbs

/-- `net.IPNet.String()`: dotted quad, slash, prefix length. -/
def renderIPNet (n : IPNet) : List Char :=
  natChars (n.ip / 16777216 % 256) ++ '.' :: natChars (n.ip / 65536 % 256) ++
    '.' :: natChars (n.ip / 256 % 256) ++ '.' :: natChars (n.ip % 256) ++
    '/' :: natChars n.pfx

/-- Values the template evaluator manipulates. -/
inductive GVal where
  | vstr (s : List Char)
  | vint (z : Int)
  | vbool (b : Bool)
  | vlist (xs : List GVal)
  | vkey (k : List Nat)
  | vnil
  | vcfg (c : Config)
  | vpeer (p : WgPeer)

/-- Go template truth: zero numbers, empty strings and collections and nil
pointers are false; everything else is true. -/
def gtruth : GVal → Bool
  | GVal.vstr s => decide ¬s.isEmpty = true
  | GVal.vint z => decide ¬z = 0
  | GVal.vbool b => b
  | GVal.vlist xs => decide ¬xs.isEmpty = true
  | GVal.vkey _ => true
  | GVal.vnil => false
  | GVal.vcfg _ => true
  | GVal.vpeer _ => true

/-- Default `fmt`-style rendering of a value; composite values never reach
this point in the template at hand. -/
def grender : GVal → List Char
  | GVal.vstr s => s
  | GVal.vint z => intChars z
  | GVal.vbool b => if b then ("true").toList else ("false").toList
  | GVal.vkey k => '[' :: List.intercalate [' '] (k.map natChars) ++ [']']
  | GVal.vlist _ => ('[' :: [']'])
  | GVal.vnil => ("<nil>").toList
  | GVal.vcfg _ => []
  | GVal.vpeer _ => []

/-- Field access on the configuration struct. -/
def fieldCfg (c : Config) (f : List Char) : Option GVal :=
  if f = ("Address").toList then
    some (GVal.vlist (c.address.map fun n => GVal.vstr (renderIPNet n)))
  else if f = ("DNS").toList then some (GVal.vlist (c.dns.map GVal.vstr))
  else if f = ("PrivateKey").toList then some (GVal.vkey c.privateKey)
  else if f = ("ListenPort").toList then
    some (match c.listenPort with | none => GVal.vnil | some z => GVal.vint z)
  else if f = ("MTU").toList then some (GVal.vint c.mtu)
  else if f = ("Table").toList then some (GVal.vint c.table)
  else if f = ("PreUp").toList then some (GVal.vstr c.preUp)
  else if f = ("PostUp").toList then some (GVal.vstr c.postUp)
  else if f = ("PreDown").toList then some (GVal.vstr c.preDown)
  else if f = ("PostDown").toList then some (GVal.vstr c.postDown)
  else if f = ("SaveConfig").toList then some (GVal.vbool c.saveConfig)
  else if f = ("Peers").toList then some (GVal.vlist (c.peers.map GVal.vpeer))
  else none

/-- Field access on a peer struct. -/
def fieldPeer (p : WgPeer) (f : List Char) : Option GVal :=
  if f = ("PublicKey").toList then some (GVal.vkey p.publicKey)
  else if f = ("AllowedIPs").toList then
    some (GVal.vlist (p.allowedIPs.map fun n => GVal.vstr (renderIPNet n)))
  else if f = ("Endpoint").toList then
    some (match p.endpoint with | none => GVal.vnil | some s => GVal.vstr s)
  else none

/-- Field access on the current dot value. -/
def fieldOf : GVal → List Char → Option GVal
  | GVal.vcfg c, f => fieldCfg c f
  | GVal.vpeer p, f => fieldPeer p f
  | _, _ => none

/-- Variable environment lookup. -/
def lookupVar : List (List Char × GVal) → List Char → Option GVal
  | [], _ => none
  | (v, x) :: e, w => if v = w then some x else lookupVar e w

/-- Natural-number value of a digit string. -/
def natFromChars (s : List Char) : Nat :=
  s.foldl (fun acc c => acc * 10 + (c.toNat - 48)) 0

/-- Evaluate one operand. -/
def evalArg (dot : GVal) (vars : List (List Char × GVal)) : Arg → Option GVal
  | Arg.dotA => some dot
  | Arg.fieldA f => fieldOf dot f
  | Arg.varA v => lookupVar vars v
  | Arg.strA s => some (GVal.vstr s)
  | Arg.numA s => some (GVal.vint (Int.ofNat (natFromChars s)))
  | Arg.fnA _ => none

/-- Apply a registered function; `wgKey` is `serializeKey`. -/
def applyFn (name : List Char) (args : List GVal) : Option GVal :=
  if name = fnWgKey then
    match args with
    | [GVal.vkey k] => some (GVal.vstr (b64encode k))
    | _ => none
  else none

/-- Evaluate one command, with an optional piped-in value appended to the
arguments of a function call. -/
def evalCmd (dot : GVal) (vars : List (List Char × GVal)) (args : List Arg)
    (piped : Option GVal) : Option GVal :=
  match args with
  | Arg.fnA name :: rest =>
    match rest.mapM (evalArg dot vars) with
    | none => none
    | some vs =>
      match piped with
      | none => applyFn name vs
      | some v => applyFn name (vs ++ [v])
  | [a] =>
    match piped with
    | none => evalArg dot vars a
    | some _ => none
  | _ => none

/-- Evaluate the later commands of a pipeline, threading the piped value. -/
def evalPipeAux (dot : GVal) (vars : List (List Char × GVal)) :
    List (List Arg) → GVal → Option GVal
  | [], v => some v
  | c :: cs, v =>
    match evalCmd dot vars c (some v) with
    | none => none
    | some v2 => evalPipeAux dot vars cs v2

/-- Evaluate a pipeline. -/
def evalPipe (dot : GVal) (vars : List (List Char × GVal)) (p : Pipe) : Option GVal :=
  match p.cmds with
  | [] => none
  | c :: cs =>
    match evalCmd dot vars c none with
    | none => none
    | some v => evalPipeAux dot vars cs v

/-- Ample evaluation fuel (never exhausted on the inputs at hand). -/
def execFuel : Nat := 1000000

/-- Execute a node sequence: emit text, render pipeline values, expand
`range` bodies once per element (binding declared index/element variables)
and `if` bodies when the guard is true. -/
def execSeq : Nat → GVal → List (List Char × GVal) → List TNode → Option (List Char)
  | 0, _, _, _ => none
  | _ + 1, _, _, [] => some []
  | fuel + 1, dot, vars, TNode.text s :: ns =>
    match execSeq fuel dot vars ns with
    | none => none
    | some out => some (s ++ out)
  | fuel + 1, dot, vars, TNode.act p :: ns =>
    match evalPipe dot vars p with
    | none => none
    | some v =>
      match execSeq fuel dot vars ns with
      | none => none
      | some out => some (grender v ++ out)
  | fuel + 1, dot, vars, TNode.cond p body :: ns =>
    match evalPipe dot vars p with
    | none => none
    | some v =>
      if gtruth v then
        match execSeq fuel dot vars body with
        | none => none
        | some bo =>
          match execSeq fuel dot vars ns with
          | none => none
          | some out => some (bo ++ out)
      else execSeq fuel dot vars ns
  | fuel + 1, dot, vars, TNode.forRange p body :: ns =>
    match evalPipe dot vars p with
    | none => none
    | some v =>
      match v with
      | GVal.vlist xs =>
        match execRange fuel vars p.decls body xs 0 with
        | none => none
        | some bo =>
          match execSeq fuel dot vars ns with
          | none => none
          | some out => some (bo ++ out)
      | _ => none
where
  /-- Expand a `range` body for each element. -/
  execRange : Nat → List (List Char × GVal) → List (List Char) → List TNode →
      List GVal → Nat → Option (List Char)
  | 0, _, _, _, _, _ => none
  | _ + 1, _, _, _, [], _ => some []
  | fuel + 1, vars, decls, body, x :: xs, i =>
    let vars2 := match decls with
      | [v] => (v, x) :: vars
      | [v, w] => (w, x) :: (v, GVal.vint (Int.ofNat i)) :: vars
      | _ => vars
    match execSeq fuel x vars2 body with
    | none => none
    | some bo =>
      match execRange fuel vars decls body xs (i + 1) with
      | none => none
      | some rest => some (bo ++ rest)

/-- `Config.MarshalText`: execute `cfgTemplate` over the configuration.
Because the package-level `template.Must` panicked, `cfgTemplate` is `none`
and no call can ever produce text. -/
def MarshalText (cfg : Config) : Option (List Char) :=
  match cfgTemplate with
  | none => none
  | some ns => execSeq execFuel (GVal.vcfg cfg) [] ns

/-- `Config.String`: `MarshalText`, panicking (modelled `none`) on error. -/
def configStringRender (cfg : Config) : Option (List Char) :=
  match MarshalText cfg with
  | none => none
  | some b => some b

/-! ## Lemmas about the flag map -/

theorem lookupFlag_setFlag_self {κ : Type} [DecidableEq κ] (m : List (κ × Nat)) (k : κ)
    (v : Nat) : lookupFlag (setFlag m k v) k = some v := by
  induction m with
  | nil => simp [setFlag, lookupFlag]
  | cons kv m ih =>
    obtain ⟨k0, v0⟩ := kv
    by_cases h : k0 = k
    · subst h; simp [setFlag, lookupFlag]
    · simp [setFlag, lookupFlag, h, ih]

theorem lookupFlag_setFlag_ne {κ : Type} [DecidableEq κ] (m : List (κ × Nat)) (k k' : κ)
    (v : Nat) (h : k' ≠ k) : lookupFlag (setFlag m k v) k' = lookupFlag m k' := by
  induction m with
  | nil =>
    have h2 : ¬k = k' := fun hh => h hh.symm
    simp [setFlag, lookupFlag, h2]
  | cons kv m ih =>
    obtain ⟨k0, v0⟩ := kv
    by_cases h0 : k0 = k
    · subst h0
      have h2 : ¬k0 = k' := fun hh => h hh.symm
      simp [setFlag, lookupFlag, h2]
    · by_cases h1 : k0 = k'
      · subst h1
        simp [setFlag, lookupFlag, h0]
      · simp [setFlag, lookupFlag, h0, h1, ih]

theorem setFlag_lookup_self {κ : Type} [DecidableEq κ] (m : List (κ × Nat)) (k : κ) (v : Nat)
    (h : lookupFlag m k = some v) : setFlag m k v = m := by
  induction m with
  | nil => simp [lookupFlag] at h
  | cons kv m ih =>
    obtain ⟨k0, v0⟩ := kv
    by_cases h0 : k0 = k
    · subst h0
      simp [lookupFlag] at h
      simp [setFlag, h]
    · simp only [lookupFlag, if_neg h0] at h
      simp [setFlag, h0, ih h]

theorem mem_mkeys_setFlag {κ : Type} [DecidableEq κ] (m : List (κ × Nat)) (k k' : κ)
    (v : Nat) : k' ∈ mkeys (setFlag m k v) ↔ k' ∈ mkeys m ∨ k' = k := by
  induction m with
  | nil => simp [setFlag, mkeys]
  | cons kv m ih =>
    obtain ⟨k0, v0⟩ := kv
    by_cases h0 : k0 = k
    · subst h0; simp [setFlag, mkeys]; tauto
    · simp only [setFlag, if_neg h0, mkeys, List.map_cons, List.mem_cons] at ih ⊢
      rw [ih]; tauto

theorem nodup_mkeys_setFlag {κ : Type} [DecidableEq κ] (m : List (κ × Nat)) (k : κ) (v : Nat)
    (h : (mkeys m).Nodup) : (mkeys (setFlag m k v)).Nodup := by
  induction m with
  | nil => simp [setFlag, mkeys]
  | cons kv m ih =>
    obtain ⟨k0, v0⟩ := kv
    simp only [mkeys, List.map_cons, List.nodup_cons] at h
    by_cases h0 : k0 = k
    · subst h0
      simpa [setFlag, mkeys] using h
    · simp only [setFlag, if_neg h0, mkeys, List.map_cons, List.nodup_cons]
      refine ⟨fun hc => ?_, ih h.2⟩
      rcases (mem_mkeys_setFlag m k k0 v).mp hc with h1 | h1
      · exact h.1 h1
      · exact h0 h1

theorem lookupFlag_eq_none_iff {κ : Type} [DecidableEq κ] (m : List (κ × Nat)) (k : κ) :
    lookupFlag m k = none ↔ k ∉ mkeys m := by
  induction m with
  | nil => simp [lookupFlag, mkeys]
  | cons kv m ih =>
    obtain ⟨k0, v0⟩ := kv
    simp only [mkeys, List.map_cons, List.mem_cons]
    by_cases h0 : k0 = k
    · subst h0
      simp [lookupFlag]
    · simp only [lookupFlag, if_neg h0]
      rw [ih]
      simp only [mkeys]
      constructor
      · intro h1 hc
        rcases hc with hc | hc
        · exact h0 hc.symm
        · exact h1 hc
      · intro h1 h2
        exact h1 (Or.inr h2)

theorem lookupFlag_isSome_iff {κ : Type} [DecidableEq κ] (m : List (κ × Nat)) (k : κ) :
    (lookupFlag m k).isSome = true ↔ k ∈ mkeys m := by
  rw [Option.isSome_iff_ne_none]
  constructor
  · intro h
    by_contra hc
    exact h ((lookupFlag_eq_none_iff m k).mpr hc)
  · intro h hc
    exact ((lookupFlag_eq_none_iff m k).mp hc) h

theorem lookupFlag_eq_some_iff {κ : Type} [DecidableEq κ] (m : List (κ × Nat)) (k : κ)
    (p : Nat) (h : (mkeys m).Nodup) : lookupFlag m k = some p ↔ (k, p) ∈ m := by
  induction m with
  | nil => simp [lookupFlag]
  | cons kv m ih =>
    obtain ⟨k0, v0⟩ := kv
    simp only [mkeys, List.map_cons, List.nodup_cons] at h
    by_cases h0 : k0 = k
    · subst h0
      constructor
      · intro hv
        have hv2 : v0 = p := by simpa [lookupFlag] using hv
        subst hv2
        exact List.mem_cons_self _ _
      · intro hv
        rcases List.mem_cons.mp hv with h1 | h1
        · have hv2 : p = v0 := congrArg Prod.snd h1
          subst hv2
          simp [lookupFlag]
        · exact absurd (List.mem_map_of_mem Prod.fst h1) h.1
    · simp only [lookupFlag, if_neg h0, List.mem_cons]
      rw [ih h.2]
      constructor
      · intro hv
        exact Or.inr hv
      · rintro (hv | hv)
        · exact absurd (congrArg Prod.fst hv).symm h0
        · exact hv

theorem lookupFlag_initFlagsAux {κ : Type} [DecidableEq κ] (s : List κ) (m : List (κ × Nat))
    (k : κ) : lookupFlag (initFlagsAux m s) k = if k ∈ s then some 1 else lookupFlag m k := by
  induction s generalizing m with
  | nil => simp [initFlagsAux]
  | cons a s ih =>
    simp only [initFlagsAux]
    rw [ih]
    by_cases hk : k ∈ s
    · simp [hk, List.mem_cons]
    · by_cases hka : k = a
      · subst hka; simp [hk, lookupFlag_setFlag_self]
      · simp [hk, hka, lookupFlag_setFlag_ne _ _ _ _ hka]

theorem lookupFlag_initFlags {κ : Type} [DecidableEq κ] (s : List κ) (k : κ) :
    lookupFlag (initFlags s) k = if k ∈ s then some 1 else none := by
  simp [initFlags, lookupFlag_initFlagsAux, lookupFlag]

theorem nodup_mkeys_initFlagsAux {κ : Type} [DecidableEq κ] (s : List κ) (m : List (κ × Nat))
    (h : (mkeys m).Nodup) : (mkeys (initFlagsAux m s)).Nodup := by
  induction s generalizing m with
  | nil => simpa [initFlagsAux] using h
  | cons a s ih => exact ih _ (nodup_mkeys_setFlag m a 1 h)

theorem nodup_mkeys_initFlags {κ : Type} [DecidableEq κ] (s : List κ) :
    (mkeys (initFlags s)).Nodup := by
  exact nodup_mkeys_initFlagsAux s [] (by simp [mkeys])

/-! ## Lemmas about `removeKey` -/

theorem mem_removeKey_of_ne {α : Type} [DecidableEq α] (s : List α) (k b : α) (h : b ≠ k) :
    b ∈ removeKey s k ↔ b ∈ s := by
  induction s with
  | nil => simp [removeKey]
  | cons a s ih =>
    by_cases h0 : a = k
    · subst h0; simp [removeKey, h, ih]
    · simp [removeKey, h0, ih]

theorem not_mem_removeKey_self {α : Type} [DecidableEq α] (s : List α) (k : α)
    (h : s.Nodup) : k ∉ removeKey s k := by
  induction s with
  | nil => simp [removeKey]
  | cons a s ih =>
    simp only [List.nodup_cons] at h
    by_cases h0 : a = k
    · subst h0; simpa [removeKey] using h.1
    · simp only [removeKey, if_neg h0, List.mem_cons]
      rintro (hc | hc)
      · exact h0 hc.symm
      · exact ih h.2 hc

theorem nodup_removeKey {α : Type} [DecidableEq α] (s : List α) (k : α) (h : s.Nodup) :
    (removeKey s k).Nodup := by
  induction s with
  | nil => simp [removeKey]
  | cons a s ih =>
    simp only [List.nodup_cons] at h
    by_cases h0 : a = k
    · subst h0; simp [removeKey, h.2]
    · simp only [removeKey, if_neg h0, List.nodup_cons]
      refine ⟨fun hc => ?_, ih h.2⟩
      by_cases hak : a = k
      · exact h0 hak
      · exact h.1 ((mem_removeKey_of_ne s k a hak).mp hc)

/-! ## Lemmas about the `syncAddress` desired loop

Throughout, `HKS` is the correspondence between the flag map's keys and the
kernel state, which `syncAddress` establishes by initializing the map from
the observed address list. -/

theorem isSome_lookupFlag_setFlag {κ : Type} [DecidableEq κ] (m : List (κ × Nat)) (k a : κ)
    (v : Nat) (h : (lookupFlag m k).isSome = true) :
    (lookupFlag (setFlag m a v) k).isSome = true := by
  by_cases hka : k = a
  · subst hka; simp [lookupFlag_setFlag_self]
  · rw [lookupFlag_setFlag_ne m a k v hka]; exact h

theorem addrDesiredLoop_cons_present (a : IPNet) (ds : List IPNet) (m : List (IPNet × Nat))
    (s : List IPNet) (tr : List AMut) (hp : (lookupFlag m a).isSome = true) :
    addrDesiredLoop (a :: ds) m s tr = addrDesiredLoop ds (setFlag m a 2) s tr := by
  simp [addrDesiredLoop, hp]

theorem addrDesiredLoop_cons_absent (a : IPNet) (ds : List IPNet) (m : List (IPNet × Nat))
    (s : List IPNet) (tr : List AMut) (hp : lookupFlag m a = none) (hs : a ∉ s) :
    addrDesiredLoop (a :: ds) m s tr =
      addrDesiredLoop ds (setFlag m a 2) (s ++ [a]) (tr ++ [AMut.add a]) := by
  simp [addrDesiredLoop, hp, hs]

theorem hks_setFlag_present {κ : Type} [DecidableEq κ] (m : List (κ × Nat)) (s : List κ)
    (a : κ) (v : Nat) (HKS : ∀ k, (lookupFlag m k).isSome = true ↔ k ∈ s)
    (hp : (lookupFlag m a).isSome = true) :
    ∀ k, (lookupFlag (setFlag m a v) k).isSome = true ↔ k ∈ s := by
  intro k
  by_cases hka : k = a
  · subst hka
    simp [lookupFlag_setFlag_self, (HKS k).mp hp]
  · rw [lookupFlag_setFlag_ne m a k v hka]
    exact HKS k

theorem hks_setFlag_absent {κ : Type} [DecidableEq κ] (m : List (κ × Nat)) (s : List κ)
    (a : κ) (v : Nat) (HKS : ∀ k, (lookupFlag m k).isSome = true ↔ k ∈ s) :
    ∀ k, (lookupFlag (setFlag m a v) k).isSome = true ↔ k ∈ s ++ [a] := by
  intro k
  by_cases hka : k = a
  · subst hka
    simp [lookupFlag_setFlag_self]
  · rw [lookupFlag_setFlag_ne m a k v hka]
    simp [HKS k, hka]

theorem addrDesiredLoop_ok (ds : List IPNet) (m : List (IPNet × Nat)) (s : List IPNet)
    (tr : List AMut) (HKS : ∀ k, (lookupFlag m k).isSome = true ↔ k ∈ s) :
    (addrDesiredLoop ds m s tr).2.ok = true := by
  induction ds generalizing m s tr with
  | nil => simp [addrDesiredLoop]
  | cons a ds ih =>
    by_cases hp : (lookupFlag m a).isSome = true
    · rw [addrDesiredLoop_cons_present a ds m s tr hp]
      exact ih _ _ _ (hks_setFlag_present m s a 2 HKS hp)
    · have hn : lookupFlag m a = none := Option.not_isSome_iff_eq_none.mp hp
      have hs : a ∉ s := fun hc => hp ((HKS a).mpr hc)
      rw [addrDesiredLoop_cons_absent a ds m s tr hn hs]
      exact ih _ _ _ (hks_setFlag_absent m s a 2 HKS)

theorem addrDesiredLoop_hks (ds : List IPNet) (m : List (IPNet × Nat)) (s : List IPNet)
    (tr : List AMut) (HKS : ∀ k, (lookupFlag m k).isSome = true ↔ k ∈ s) :
    ∀ k, (lookupFlag (addrDesiredLoop ds m s tr).1 k).isSome = true ↔
      k ∈ (addrDesiredLoop ds m s tr).2.kern := by
  induction ds generalizing m s tr with
  | nil => simpa [addrDesiredLoop] using HKS
  | cons a ds ih =>
    by_cases hp : (lookupFlag m a).isSome = true
    · rw [addrDesiredLoop_cons_present a ds m s tr hp]
      exact ih _ _ _ (hks_setFlag_present m s a 2 HKS hp)
    · have hn : lookupFlag m a = none := Option.not_isSome_iff_eq_none.mp hp
      have hs : a ∉ s := fun hc => hp ((HKS a).mpr hc)
      rw [addrDesiredLoop_cons_absent a ds m s tr hn hs]
      exact ih _ _ _ (hks_setFlag_absent m s a 2 HKS)

theorem addrDesiredLoop_kern_mem (ds : List IPNet) (m : List (IPNet × Nat)) (s : List IPNet)
    (tr : List AMut) (HKS : ∀ k, (lookupFlag m k).isSome = true ↔ k ∈ s) :
    ∀ k, k ∈ (addrDesiredLoop ds m s tr).2.kern ↔ k ∈ s ∨ k ∈ ds := by
  induction ds generalizing m s tr with
  | nil => simp [addrDesiredLoop]
  | cons a ds ih =>
    intro k
    by_cases hp : (lookupFlag m a).isSome = true
    · rw [addrDesiredLoop_cons_present a ds m s tr hp]
      rw [ih _ _ _ (hks_setFlag_present m s a 2 HKS hp) k]
      have ha : a ∈ s := (HKS a).mp hp
      constructor
      · rintro (h | h)
        · exact Or.inl h
        · exact Or.inr (List.mem_cons_of_mem a h)
      · rintro (h | h)
        · exact Or.inl h
        · rcases List.mem_cons.mp h with h | h
          · subst h; exact Or.inl ha
          · exact Or.inr h
    · have hn : lookupFlag m a = none := Option.not_isSome_iff_eq_none.mp hp
      have hs : a ∉ s := fun hc => hp ((HKS a).mpr hc)
      rw [addrDesiredLoop_cons_absent a ds m s tr hn hs]
      rw [ih _ _ _ (hks_setFlag_absent m s a 2 HKS) k]
      simp only [List.mem_append, List.mem_singleton, List.mem_cons]
      tauto

theorem addrDesiredLoop_lookup_two (ds : List IPNet) (m : List (IPNet × Nat)) (s : List IPNet)
    (tr : List AMut) (HKS : ∀ k, (lookupFlag m k).isSome = true ↔ k ∈ s) :
    ∀ k, lookupFlag (addrDesiredLoop ds m s tr).1 k = some 2 ↔
      (lookupFlag m k = some 2 ∨ k ∈ ds) := by
  induction ds generalizing m s tr with
  | nil => simp [addrDesiredLoop]
  | cons a ds ih =>
    intro k
    by_cases hp : (lookupFlag m a).isSome = true
    · rw [addrDesiredLoop_cons_present a ds m s tr hp]
      rw [ih _ _ _ (hks_setFlag_present m s a 2 HKS hp) k]
      by_cases hka : k = a
      · subst hka
        simp [lookupFlag_setFlag_self]
      · rw [lookupFlag_setFlag_ne m a k 2 hka]
        simp only [List.mem_cons]
        tauto
    · have hn : lookupFlag m a = none := Option.not_isSome_iff_eq_none.mp hp
      have hs : a ∉ s := fun hc => hp ((HKS a).mpr hc)
      rw [addrDesiredLoop_cons_absent a ds m s tr hn hs]
      rw [ih _ _ _ (hks_setFlag_absent m s a 2 HKS) k]
      by_cases hka : k = a
      · subst hka
        simp [lookupFlag_setFlag_self]
      · rw [lookupFlag_setFlag_ne m a k 2 hka]
        simp only [List.mem_cons]
        tauto

theorem addrDesiredLoop_noop (ds : List IPNet) (m : List (IPNet × Nat)) (s : List IPNet)
    (tr : List AMut) (h : ∀ a ∈ ds, (lookupFlag m a).isSome = true) :
    (addrDesiredLoop ds m s tr).2 = ⟨s, tr, true⟩ := by
  induction ds generalizing m with
  | nil => simp [addrDesiredLoop]
  | cons a ds ih =>
    have hp : (lookupFlag m a).isSome = true := h a (List.mem_cons_self a ds)
    rw [addrDesiredLoop_cons_present a ds m s tr hp]
    exact ih _ fun b hb => isSome_lookupFlag_setFlag m b a 2 (h b (List.mem_cons_of_mem a hb))

theorem addrDesiredLoop_mkeys_nodup (ds : List IPNet) (m : List (IPNet × Nat))
    (s : List IPNet) (tr : List AMut) (h : (mkeys m).Nodup) :
    (mkeys (addrDesiredLoop ds m s tr).1).Nodup := by
  induction ds generalizing m s tr with
  | nil => simpa [addrDesiredLoop] using h
  | cons a ds ih =>
    by_cases hp : (lookupFlag m a).isSome = true
    · rw [addrDesiredLoop_cons_present a ds m s tr hp]
      exact ih _ _ _ (nodup_mkeys_setFlag m a 2 h)
    · have hn : lookupFlag m a = none := Option.not_isSome_iff_eq_none.mp hp
      by_cases hs : a ∈ s
      · simp [addrDesiredLoop, hn, hs, nodup_mkeys_setFlag m a 2 h]
      · rw [addrDesiredLoop_cons_absent a ds m s tr hn hs]
        exact ih _ _ _ (nodup_mkeys_setFlag m a 2 h)

theorem addrDesiredLoop_values (ds : List IPNet) (m : List (IPNet × Nat)) (s : List IPNet)
    (tr : List AMut) (h : ∀ k p, lookupFlag m k = some p → p = 1 ∨ p = 2) :
    ∀ k p, lookupFlag (addrDesiredLoop ds m s tr).1 k = some p → p = 1 ∨ p = 2 := by
  induction ds generalizing m s tr with
  | nil => simpa [addrDesiredLoop] using h
  | cons a ds ih =>
    have h2 : ∀ k p, lookupFlag (setFlag m a 2) k = some p → p = 1 ∨ p = 2 := by
      intro k p hk
      by_cases hka : k = a
      · subst hka
        rw [lookupFlag_setFlag_self] at hk
        right
        exact (Option.some.injEq .. ▸ hk.symm)
      · rw [lookupFlag_setFlag_ne m a k 2 hka] at hk
        exact h k p hk
    by_cases hp : (lookupFlag m a).isSome = true
    · rw [addrDesiredLoop_cons_present a ds m s tr hp]
      exact ih _ _ _ h2
    · have hn : lookupFlag m a = none := Option.not_isSome_iff_eq_none.mp hp
      by_cases hs : a ∈ s
      · simp only [addrDesiredLoop, hn, Option.isSome_none, Bool.false_eq_true, if_false,
          hs, if_true]
        exact h2
      · rw [addrDesiredLoop_cons_absent a ds m s tr hn hs]
        exact ih _ _ _ h2

theorem addrDesiredLoop_add_mem (ds : List IPNet) (m : List (IPNet × Nat)) (s : List IPNet)
    (tr : List AMut) (HKS : ∀ k, (lookupFlag m k).isSome = true ↔ k ∈ s) :
    ∀ k, AMut.add k ∈ (addrDesiredLoop ds m s tr).2.calls ↔
      (AMut.add k ∈ tr ∨ (k ∈ ds ∧ lookupFlag m k = none)) := by
  induction ds generalizing m s tr with
  | nil => simp [addrDesiredLoop]
  | cons a ds ih =>
    intro k
    by_cases hp : (lookupFlag m a).isSome = true
    · rw [addrDesiredLoop_cons_present a ds m s tr hp]
      rw [ih _ _ _ (hks_setFlag_present m s a 2 HKS hp) k]
      by_cases hka : k = a
      · subst hka
        simp only [lookupFlag_setFlag_self]
        constructor
        · rintro (h | ⟨-, h⟩)
          · exact Or.inl h
          · cases h
        · rintro (h | ⟨-, h⟩)
          · exact Or.inl h
          · rw [h] at hp
            simp at hp
      · rw [lookupFlag_setFlag_ne m a k 2 hka]
        simp only [List.mem_cons]
        tauto
    · have hn : lookupFlag m a = none := Option.not_isSome_iff_eq_none.mp hp
      have hs : a ∉ s := fun hc => hp ((HKS a).mpr hc)
      rw [addrDesiredLoop_cons_absent a ds m s tr hn hs]
      rw [ih _ _ _ (hks_setFlag_absent m s a 2 HKS) k]
      by_cases hka : k = a
      · subst hka
        simp [lookupFlag_setFlag_self, hn]
      · rw [lookupFlag_setFlag_ne m a k 2 hka]
        have hne : AMut.add k ≠ AMut.add a := fun hc => hka (AMut.add.injEq .. ▸ hc)
        simp only [List.mem_append, List.mem_singleton, List.mem_cons, hne]
        tauto

theorem addrDesiredLoop_del_mem (ds : List IPNet) (m : List (IPNet × Nat)) (s : List IPNet)
    (tr : List AMut) :
    ∀ k, AMut.del k ∈ (addrDesiredLoop ds m s tr).2.calls ↔ AMut.del k ∈ tr := by
  induction ds generalizing m s tr with
  | nil => simp [addrDesiredLoop]
  | cons a ds ih =>
    intro k
    by_cases hp : (lookupFlag m a).isSome = true
    · rw [addrDesiredLoop_cons_present a ds m s tr hp]
      exact ih _ _ _ k
    · have hn : lookupFlag m a = none := Option.not_isSome_iff_eq_none.mp hp
      by_cases hs : a ∈ s
      · simp [addrDesiredLoop, hn, hs]
      · rw [addrDesiredLoop_cons_absent a ds m s tr hn hs]
        rw [ih _ _ _ k]
        simp

theorem addrDesiredLoop_count (ds : List IPNet) (m : List (IPNet × Nat)) (s : List IPNet)
    (tr : List AMut) (HKS : ∀ k, (lookupFlag m k).isSome = true ↔ k ∈ s) :
    ∀ k, ((addrDesiredLoop ds m s tr).2.calls).count (AMut.add k) =
      tr.count (AMut.add k) + (if k ∈ ds ∧ lookupFlag m k = none then 1 else 0) := by
  induction ds generalizing m s tr with
  | nil => simp [addrDesiredLoop]
  | cons a ds ih =>
    intro k
    by_cases hp : (lookupFlag m a).isSome = true
    · rw [addrDesiredLoop_cons_present a ds m s tr hp]
      rw [ih _ _ _ (hks_setFlag_present m s a 2 HKS hp) k]
      by_cases hka : k = a
      · subst hka
        have h1 : ¬lookupFlag m k = none := fun hc => by rw [hc] at hp; simp at hp
        have h2 : ¬lookupFlag (setFlag m k 2) k = none := by
          simp [lookupFlag_setFlag_self]
        simp [h1, h2]
      · rw [lookupFlag_setFlag_ne m a k 2 hka]
        simp only [List.mem_cons]
        have heq : (k ∈ ds ∧ lookupFlag m k = none) ↔
            ((k = a ∨ k ∈ ds) ∧ lookupFlag m k = none) := by
          constructor
          · rintro ⟨h1, h2⟩; exact ⟨Or.inr h1, h2⟩
          · rintro ⟨h1, h2⟩
            rcases h1 with h1 | h1
            · subst h1; rw [h2] at hp; simp at hp
            · exact ⟨h1, h2⟩
        rw [if_congr heq rfl rfl]
    · have hn : lookupFlag m a = none := Option.not_isSome_iff_eq_none.mp hp
      have hs : a ∉ s := fun hc => hp ((HKS a).mpr hc)
      rw [addrDesiredLoop_cons_absent a ds m s tr hn hs]
      rw [ih _ _ _ (hks_setFlag_absent m s a 2 HKS) k]
      by_cases hka : k = a
      · subst hka
        have h2 : ¬lookupFlag (setFlag m k 2) k = none := by
          simp [lookupFlag_setFlag_self]
        simp [h2, hn, List.count_append]
      · rw [lookupFlag_setFlag_ne m a k 2 hka]
        have hm : AMut.add k ∉ [AMut.add a] := by
          simp only [List.mem_singleton]
          exact fun hc => hka (AMut.add.injEq .. ▸ hc)
        have hcnt : List.count (AMut.add k) (tr ++ [AMut.add a]) =
            List.count (AMut.add k) tr := by
          rw [List.count_append, List.count_eq_zero.mpr hm]
          omega
        rw [hcnt]
        simp only [List.mem_cons]
        have heq : (k ∈ ds ∧ lookupFlag m k = none) ↔
            ((k = a ∨ k ∈ ds) ∧ lookupFlag m k = none) := by
          constructor
          · rintro ⟨h1, h2⟩; exact ⟨Or.inr h1, h2⟩
          · rintro ⟨h1, h2⟩
            rcases h1 with h1 | h1
            · exact absurd h1 hka
            · exact ⟨h1, h2⟩
        rw [if_congr heq rfl rfl]

theorem addrDesiredLoop_skip_two (ds1 : List IPNet) (a : IPNet) (ds2 : List IPNet)
    (m : List (IPNet × Nat)) (s : List IPNet) (tr : List AMut)
    (h : lookupFlag m a = some 2) :
    addrDesiredLoop (ds1 ++ a :: ds2) m s tr = addrDesiredLoop (ds1 ++ ds2) m s tr := by
  induction ds1 generalizing m s tr with
  | nil =>
    have hp : (lookupFlag m a).isSome = true := by simp [h]
    simp only [List.nil_append]
    rw [addrDesiredLoop_cons_present a ds2 m s tr hp, setFlag_lookup_self m a 2 h]
  | cons d ds1 ih =>
    have hpre : lookupFlag (setFlag m d 2) a = some 2 := by
      by_cases hda : a = d
      · subst hda; simp [lookupFlag_setFlag_self]
      · rw [lookupFlag_setFlag_ne m d a 2 hda]; exact h
    by_cases hp : (lookupFlag m d).isSome = true
    · rw [List.cons_append, List.cons_append,
        addrDesiredLoop_cons_present d _ m s tr hp,
        addrDesiredLoop_cons_present d _ m s tr hp]
      exact ih _ _ _ hpre
    · have hn : lookupFlag m d = none := Option.not_isSome_iff_eq_none.mp hp
      by_cases hs : d ∈ s
      · simp [addrDesiredLoop, hn, hs]
      · rw [List.cons_append, List.cons_append,
          addrDesiredLoop_cons_absent d _ m s tr hn hs,
          addrDesiredLoop_cons_absent d _ m s tr hn hs]
        exact ih _ _ _ hpre

theorem addrDesiredLoop_dup (ds1 : List IPNet) (a : IPNet) (ds2 : List IPNet)
    (m : List (IPNet × Nat)) (s : List IPNet) (tr : List AMut) (h : a ∈ ds1) :
    addrDesiredLoop (ds1 ++ a :: ds2) m s tr = addrDesiredLoop (ds1 ++ ds2) m s tr := by
  induction ds1 generalizing m s tr with
  | nil => cases h
  | cons d ds1 ih =>
    by_cases hin : a ∈ ds1
    · by_cases hp : (lookupFlag m d).isSome = true
      · rw [List.cons_append, List.cons_append,
          addrDesiredLoop_cons_present d _ m s tr hp,
          addrDesiredLoop_cons_present d _ m s tr hp]
        exact ih _ _ _ hin
      · have hn : lookupFlag m d = none := Option.not_isSome_iff_eq_none.mp hp
        by_cases hs : d ∈ s
        · simp [addrDesiredLoop, hn, hs]
        · rw [List.cons_append, List.cons_append,
            addrDesiredLoop_cons_absent d _ m s tr hn hs,
            addrDesiredLoop_cons_absent d _ m s tr hn hs]
          exact ih _ _ _ hin
    · have hda : a = d := by
        rcases List.mem_cons.mp h with h1 | h1
        · exact h1
        · exact absurd h1 hin
      subst hda
      by_cases hp : (lookupFlag m a).isSome = true
      · rw [List.cons_append, List.cons_append,
          addrDesiredLoop_cons_present a _ m s tr hp,
          addrDesiredLoop_cons_present a _ m s tr hp]
        exact addrDesiredLoop_skip_two ds1 a ds2 _ _ _ (lookupFlag_setFlag_self m a 2)
      · have hn : lookupFlag m a = none := Option.not_isSome_iff_eq_none.mp hp
        by_cases hs : a ∈ s
        · simp [addrDesiredLoop, hn, hs]
        · rw [List.cons_append, List.cons_append,
            addrDesiredLoop_cons_absent a _ m s tr hn hs,
            addrDesiredLoop_cons_absent a _ m s tr hn hs]
          exact addrDesiredLoop_skip_two ds1 a ds2 _ _ _ (lookupFlag_setFlag_self m a 2)

/-! ## Lemmas about the `syncAddress` cleanup loop -/

theorem count_add_append_ne (tr : List AMut) (k k0 : IPNet) (h : k ≠ k0) :
    (tr ++ [AMut.add k0]).count (AMut.add k) = tr.count (AMut.add k) := by
  have hm : AMut.add k ∉ [AMut.add k0] := by
    simp only [List.mem_singleton]
    exact fun hc => h (AMut.add.injEq .. ▸ hc)
  rw [List.count_append, List.count_eq_zero.mpr hm]
  omega

theorem count_add_append_self (tr : List AMut) (k : IPNet) :
    (tr ++ [AMut.add k]).count (AMut.add k) = tr.count (AMut.add k) + 1 := by
  rw [List.count_append]
  simp

theorem addrCleanupLoop_no_sched (m : List (IPNet × Nat)) (s : List IPNet) (tr : List AMut)
    (h : ∀ k p, (k, p) ∈ m → ¬p < 2) : addrCleanupLoop m s tr = ⟨s, tr, true⟩ := by
  induction m with
  | nil => simp [addrCleanupLoop]
  | cons kv m ih =>
    obtain ⟨k0, p0⟩ := kv
    have h0 : ¬p0 < 2 := h k0 p0 (List.mem_cons_self _ _)
    simp only [addrCleanupLoop, if_neg h0]
    exact ih fun k p hk => h k p (List.mem_cons_of_mem _ hk)

theorem addrCleanupLoop_ok_imp (m : List (IPNet × Nat)) (s : List IPNet) (tr : List AMut)
    (h : ∀ k p, (k, p) ∈ m → p < 2 → k ∈ s) :
    (addrCleanupLoop m s tr).ok = true → ∀ k p, (k, p) ∈ m → ¬p < 2 := by
  induction m generalizing s tr with
  | nil =>
    intro _ k p hk
    cases hk
  | cons kv m ih =>
    obtain ⟨k0, p0⟩ := kv
    by_cases h0 : p0 < 2
    · have hks : k0 ∈ s := h k0 p0 (List.mem_cons_self _ _) h0
      simp [addrCleanupLoop, h0, hks]
    · rw [show addrCleanupLoop ((k0, p0) :: m) s tr = addrCleanupLoop m s tr from by
        simp [addrCleanupLoop, h0]]
      intro hok k p hk
      rcases List.mem_cons.mp hk with h1 | h1
      · have hpp : p = p0 := congrArg Prod.snd h1
        subst hpp
        exact h0
      · exact ih s tr (fun k' p' hk' hp' => h k' p' (List.mem_cons_of_mem _ hk') hp') hok k p h1

theorem addrCleanupLoop_del_mem (m : List (IPNet × Nat)) (s : List IPNet) (tr : List AMut) :
    ∀ k, AMut.del k ∈ (addrCleanupLoop m s tr).calls ↔ AMut.del k ∈ tr := by
  induction m generalizing s tr with
  | nil => simp [addrCleanupLoop]
  | cons kv m ih =>
    obtain ⟨k0, p0⟩ := kv
    intro k
    by_cases h0 : p0 < 2
    · by_cases hks : k0 ∈ s
      · simp [addrCleanupLoop, h0, hks]
      · rw [show addrCleanupLoop ((k0, p0) :: m) s tr =
            addrCleanupLoop m (s ++ [k0]) (tr ++ [AMut.add k0]) from by
          simp [addrCleanupLoop, h0, hks]]
        rw [ih _ _ k]
        simp
    · rw [show addrCleanupLoop ((k0, p0) :: m) s tr = addrCleanupLoop m s tr from by
        simp [addrCleanupLoop, h0]]
      exact ih _ _ k

theorem addrCleanupLoop_count_notin (m : List (IPNet × Nat)) (s : List IPNet) (tr : List AMut)
    (k : IPNet) (h : k ∉ mkeys m) :
    ((addrCleanupLoop m s tr).calls).count (AMut.add k) = tr.count (AMut.add k) := by
  induction m generalizing s tr with
  | nil => simp [addrCleanupLoop]
  | cons kv m ih =>
    obtain ⟨k0, p0⟩ := kv
    have hsplit : ¬k = k0 ∧ k ∉ mkeys m := by
      constructor
      · intro hc
        exact h (by simp [mkeys, hc])
      · intro hc
        exact h (by simp only [mkeys, List.map_cons, List.mem_cons]; exact Or.inr hc)
    by_cases h0 : p0 < 2
    · by_cases hks : k0 ∈ s
      · rw [show (addrCleanupLoop ((k0, p0) :: m) s tr).calls = tr ++ [AMut.add k0] from by
          simp [addrCleanupLoop, h0, hks]]
        exact count_add_append_ne tr k k0 hsplit.1
      · rw [show addrCleanupLoop ((k0, p0) :: m) s tr =
            addrCleanupLoop m (s ++ [k0]) (tr ++ [AMut.add k0]) from by
          simp [addrCleanupLoop, h0, hks]]
        rw [ih _ _ hsplit.2]
        exact count_add_append_ne tr k k0 hsplit.1
    · rw [show addrCleanupLoop ((k0, p0) :: m) s tr = addrCleanupLoop m s tr from by
        simp [addrCleanupLoop, h0]]
      exact ih _ _ hsplit.2

theorem addrCleanupLoop_count (m : List (IPNet × Nat)) (s : List IPNet) (tr : List AMut)
    (hN : (mkeys m).Nodup) (k : IPNet) :
    ((addrCleanupLoop m s tr).calls).count (AMut.add k) ≤
      tr.count (AMut.add k) + (if lookupFlag m k = some 2 then 0 else 1) := by
  induction m generalizing s tr with
  | nil =>
    simp only [addrCleanupLoop, lookupFlag]
    split <;> omega
  | cons kv m ih =>
    obtain ⟨k0, p0⟩ := kv
    have hN1 : k0 ∉ mkeys m := by
      have := hN
      simp only [mkeys, List.map_cons, List.nodup_cons] at this
      exact this.1
    have hN2 : (mkeys m).Nodup := by
      have := hN
      simp only [mkeys, List.map_cons, List.nodup_cons] at this
      exact this.2
    by_cases hk0 : k = k0
    · subst hk0
      have hlk : lookupFlag ((k, p0) :: m) k = some p0 := by simp [lookupFlag]
      rw [hlk]
      by_cases h0 : p0 < 2
      · have hne2 : ¬(some p0 = some 2) := by
          intro hc
          have : p0 = 2 := Option.some.injEq .. ▸ hc
          omega
        rw [if_neg hne2]
        by_cases hks : k ∈ s
        · rw [show (addrCleanupLoop ((k, p0) :: m) s tr).calls = tr ++ [AMut.add k] from by
            simp [addrCleanupLoop, h0, hks]]
          rw [count_add_append_self]
        · rw [show addrCleanupLoop ((k, p0) :: m) s tr =
              addrCleanupLoop m (s ++ [k]) (tr ++ [AMut.add k]) from by
            simp [addrCleanupLoop, h0, hks]]
          rw [addrCleanupLoop_count_notin m _ _ k hN1]
          rw [count_add_append_self]
      · rw [show addrCleanupLoop ((k, p0) :: m) s tr = addrCleanupLoop m s tr from by
          simp [addrCleanupLoop, h0]]
        rw [addrCleanupLoop_count_notin m _ _ k hN1]
        split <;> omega
    · have hlk : lookupFlag ((k0, p0) :: m) k = lookupFlag m k := by
        simp only [lookupFlag, if_neg (fun hc : k0 = k => hk0 hc.symm)]
      rw [hlk]
      by_cases h0 : p0 < 2
      · by_cases hks : k0 ∈ s
        · rw [show (addrCleanupLoop ((k0, p0) :: m) s tr).calls = tr ++ [AMut.add k0] from by
            simp [addrCleanupLoop, h0, hks]]
          rw [count_add_append_ne tr k k0 hk0]
          split <;> omega
        · rw [show addrCleanupLoop ((k0, p0) :: m) s tr =
              addrCleanupLoop m (s ++ [k0]) (tr ++ [AMut.add k0]) from by
            simp [addrCleanupLoop, h0, hks]]
          have := ih (s ++ [k0]) (tr ++ [AMut.add k0]) hN2
          rw [count_add_append_ne tr k k0 hk0] at this
          exact this
      · rw [show addrCleanupLoop ((k0, p0) :: m) s tr = addrCleanupLoop m s tr from by
          simp [addrCleanupLoop, h0]]
        exact ih s tr hN2

/-! ## `syncAddress`: end-to-end lemmas -/

theorem initFlags_hks {κ : Type} [DecidableEq κ] (s : List κ) :
    ∀ k, (lookupFlag (initFlags s) k).isSome = true ↔ k ∈ s := by
  intro k
  rw [lookupFlag_initFlags]
  by_cases h : k ∈ s <;> simp [h]

theorem initFlags_values {κ : Type} [DecidableEq κ] (s : List κ) :
    ∀ k p, lookupFlag (initFlags s) k = some p → p = 1 ∨ p = 2 := by
  intro k p h
  rw [lookupFlag_initFlags] at h
  by_cases hk : k ∈ s
  · rw [if_pos hk] at h
    left
    exact Option.some.injEq .. ▸ h.symm
  · rw [if_neg hk] at h
    cases h

theorem initFlags_not_two {κ : Type} [DecidableEq κ] (s : List κ) (k : κ) :
    ¬lookupFlag (initFlags s) k = some 2 := by
  intro h
  rw [lookupFlag_initFlags] at h
  by_cases hk : k ∈ s
  · rw [if_pos hk] at h
    have : (1 : Nat) = 2 := Option.some.injEq .. ▸ h
    omega
  · rw [if_neg hk] at h
    cases h

theorem syncAddress_eq (s ds : List IPNet) :
    syncAddress s ds = addrCleanupLoop (addrDesiredLoop ds (initFlags s) s []).1
      (addrDesiredLoop ds (initFlags s) s []).2.kern
      (addrDesiredLoop ds (initFlags s) s []).2.calls := by
  have hok := addrDesiredLoop_ok ds (initFlags s) s [] (initFlags_hks s)
  simp only [syncAddress]
  rw [if_pos hok]

theorem syncAddress_ok_flags (s ds : List IPNet) (hok : (syncAddress s ds).ok = true) :
    ∀ k p, (k, p) ∈ (addrDesiredLoop ds (initFlags s) s []).1 → ¬p < 2 := by
  have hN : (mkeys (addrDesiredLoop ds (initFlags s) s []).1).Nodup :=
    addrDesiredLoop_mkeys_nodup ds (initFlags s) s [] (nodup_mkeys_initFlags s)
  rw [syncAddress_eq] at hok
  refine addrCleanupLoop_ok_imp _ _ _ ?_ hok
  intro k p hk _
  have hl : lookupFlag (addrDesiredLoop ds (initFlags s) s []).1 k = some p :=
    (lookupFlag_eq_some_iff _ k p hN).mpr hk
  have hi : (lookupFlag (addrDesiredLoop ds (initFlags s) s []).1 k).isSome = true := by
    rw [hl]; rfl
  exact (addrDesiredLoop_hks ds (initFlags s) s [] (initFlags_hks s) k).mp hi

theorem syncAddress_ok_result (s ds : List IPNet) (hok : (syncAddress s ds).ok = true) :
    syncAddress s ds = ⟨(addrDesiredLoop ds (initFlags s) s []).2.kern,
      (addrDesiredLoop ds (initFlags s) s []).2.calls, true⟩ := by
  rw [syncAddress_eq]
  exact addrCleanupLoop_no_sched _ _ _ (syncAddress_ok_flags s ds hok)

theorem syncAddress_ok_sub (s ds : List IPNet) (hok : (syncAddress s ds).ok = true) :
    ∀ k ∈ s, k ∈ ds := by
  intro k hk
  have hN : (mkeys (addrDesiredLoop ds (initFlags s) s []).1).Nodup :=
    addrDesiredLoop_mkeys_nodup ds (initFlags s) s [] (nodup_mkeys_initFlags s)
  have hi : (lookupFlag (addrDesiredLoop ds (initFlags s) s []).1 k).isSome = true := by
    have h1 : (lookupFlag (initFlags s) k).isSome = true := (initFlags_hks s k).mpr hk
    have h2 := (addrDesiredLoop_hks ds (initFlags s) s [] (initFlags_hks s) k).mpr
    have h3 := (addrDesiredLoop_kern_mem ds (initFlags s) s [] (initFlags_hks s) k).mpr
      (Or.inl hk)
    exact h2 h3
  obtain ⟨p, hp⟩ := Option.isSome_iff_exists.mp hi
  have hmem : (k, p) ∈ (addrDesiredLoop ds (initFlags s) s []).1 :=
    (lookupFlag_eq_some_iff _ k p hN).mp hp
  have hnl : ¬p < 2 := syncAddress_ok_flags s ds hok k p hmem
  have hval : p = 1 ∨ p = 2 :=
    addrDesiredLoop_values ds (initFlags s) s [] (initFlags_values s) k p hp
  have hp2 : p = 2 := by omega
  subst hp2
  rcases (addrDesiredLoop_lookup_two ds (initFlags s) s [] (initFlags_hks s) k).mp hp with
    h | h
  · exact absurd h (initFlags_not_two s k)
  · exact h

theorem syncAddress_ok_kern (s ds : List IPNet) (hok : (syncAddress s ds).ok = true) :
    ∀ k, k ∈ (syncAddress s ds).kern ↔ k ∈ ds := by
  intro k
  rw [syncAddress_ok_result s ds hok]
  rw [addrDesiredLoop_kern_mem ds (initFlags s) s [] (initFlags_hks s) k]
  constructor
  · rintro (h | h)
    · exact syncAddress_ok_sub s ds hok k h
    · exact h
  · exact Or.inr

theorem syncAddress_second_noop (s ds : List IPNet)
    (hok : (syncAddress s ds).ok = true) :
    syncAddress (syncAddress s ds).kern ds = ⟨(syncAddress s ds).kern, [], true⟩ := by
  have hkern := syncAddress_ok_kern s ds hok
  set s1 := (syncAddress s ds).kern with hs1
  have hnoop : (addrDesiredLoop ds (initFlags s1) s1 []).2 = ⟨s1, [], true⟩ :=
    addrDesiredLoop_noop ds (initFlags s1) s1 []
      (fun a ha => (initFlags_hks s1 a).mpr ((hkern a).mpr ha))
  have hN : (mkeys (addrDesiredLoop ds (initFlags s1) s1 []).1).Nodup :=
    addrDesiredLoop_mkeys_nodup ds (initFlags s1) s1 [] (nodup_mkeys_initFlags s1)
  have hsched : ∀ k p, (k, p) ∈ (addrDesiredLoop ds (initFlags s1) s1 []).1 → ¬p < 2 := by
    intro k p hk
    have hl : lookupFlag (addrDesiredLoop ds (initFlags s1) s1 []).1 k = some p :=
      (lookupFlag_eq_some_iff _ k p hN).mpr hk
    have hi : (lookupFlag (addrDesiredLoop ds (initFlags s1) s1 []).1 k).isSome = true := by
      rw [hl]; rfl
    have hkin : k ∈ (addrDesiredLoop ds (initFlags s1) s1 []).2.kern :=
      (addrDesiredLoop_hks ds (initFlags s1) s1 [] (initFlags_hks s1) k).mp hi
    rw [hnoop] at hkin
    have hkds : k ∈ ds := (hkern k).mp hkin
    have h2 : lookupFlag (addrDesiredLoop ds (initFlags s1) s1 []).1 k = some 2 :=
      (addrDesiredLoop_lookup_two ds (initFlags s1) s1 [] (initFlags_hks s1) k).mpr
        (Or.inr hkds)
    rw [hl] at h2
    have : p = 2 := Option.some.injEq .. ▸ h2
    omega
  rw [syncAddress_eq s1 ds, hnoop]
  exact addrCleanupLoop_no_sched _ _ _ hsched

theorem syncAddress_dup (s d1 : List IPNet) (a : IPNet) (d2 : List IPNet) (h : a ∈ d1) :
    syncAddress s (d1 ++ a :: d2) = syncAddress s (d1 ++ d2) := by
  simp only [syncAddress]
  rw [addrDesiredLoop_dup d1 a d2 _ _ _ h]

theorem syncAddress_count_le_one (s ds : List IPNet) (k : IPNet) :
    ((syncAddress s ds).calls).count (AMut.add k) ≤ 1 := by
  rw [syncAddress_eq]
  have hN : (mkeys (addrDesiredLoop ds (initFlags s) s []).1).Nodup :=
    addrDesiredLoop_mkeys_nodup ds (initFlags s) s [] (nodup_mkeys_initFlags s)
  have hclean := addrCleanupLoop_count (addrDesiredLoop ds (initFlags s) s []).1
    (addrDesiredLoop ds (initFlags s) s []).2.kern
    (addrDesiredLoop ds (initFlags s) s []).2.calls hN k
  have hds := addrDesiredLoop_count ds (initFlags s) s [] (initFlags_hks s) k
  simp only [List.count_nil, Nat.zero_add] at hds
  by_cases hc : k ∈ ds
  · have h2 : lookupFlag (addrDesiredLoop ds (initFlags s) s []).1 k = some 2 :=
      (addrDesiredLoop_lookup_two ds (initFlags s) s [] (initFlags_hks s) k).mpr
        (Or.inr hc)
    rw [if_pos h2] at hclean
    have hle : ((addrDesiredLoop ds (initFlags s) s []).2.calls).count (AMut.add k) ≤ 1 := by
      rw [hds]
      split <;> omega
    omega
  · have h0 : ((addrDesiredLoop ds (initFlags s) s []).2.calls).count (AMut.add k) = 0 := by
      rw [hds]
      have : ¬(k ∈ ds ∧ lookupFlag (initFlags s) k = none) := fun hcc => hc hcc.1
      rw [if_neg this]
    rw [h0] at hclean
    have hb : (if lookupFlag (addrDesiredLoop ds (initFlags s) s []).1 k = some 2
        then 0 else 1) ≤ 1 := by
      split <;> omega
    omega

theorem syncAddress_no_del (s ds : List IPNet) (k : IPNet) :
    AMut.del k ∉ (syncAddress s ds).calls := by
  rw [syncAddress_eq]
  intro hc
  rw [addrCleanupLoop_del_mem] at hc
  rw [addrDesiredLoop_del_mem] at hc
  cases hc

/-! ## Lemmas about the `syncRoutes` desired loop -/

theorem routesDesiredLoop_cons_present (rt : IPNet) (ds : List IPNet)
    (m : List (RKey × Nat)) (s : List RKey) (tr : List RMut)
    (hp : (lookupFlag m (some rt)).isSome = true) :
    routesDesiredLoop (rt :: ds) m s tr = routesDesiredLoop ds (setFlag m (some rt) 2) s tr := by
  simp [routesDesiredLoop, hp]

theorem routesDesiredLoop_cons_absent (rt : IPNet) (ds : List IPNet)
    (m : List (RKey × Nat)) (s : List RKey) (tr : List RMut)
    (hp : lookupFlag m (some rt) = none) (hs : some rt ∉ s) :
    routesDesiredLoop (rt :: ds) m s tr =
      routesDesiredLoop ds (setFlag m (some rt) 2) (s ++ [some rt]) (tr ++ [RMut.add rt]) := by
  simp [routesDesiredLoop, hp, hs]

theorem routesDesiredLoop_ok (ds : List IPNet) (m : List (RKey × Nat)) (s : List RKey)
    (tr : List RMut) (HKS : ∀ k, (lookupFlag m k).isSome = true ↔ k ∈ s) :
    (routesDesiredLoop ds m s tr).2.ok = true := by
  induction ds generalizing m s tr with
  | nil => simp [routesDesiredLoop]
  | cons rt ds ih =>
    by_cases hp : (lookupFlag m (some rt)).isSome = true
    · rw [routesDesiredLoop_cons_present rt ds m s tr hp]
      exact ih _ _ _ (hks_setFlag_present m s (some rt) 2 HKS hp)
    · have hn : lookupFlag m (some rt) = none := Option.not_isSome_iff_eq_none.mp hp
      have hs : some rt ∉ s := fun hc => hp ((HKS (some rt)).mpr hc)
      rw [routesDesiredLoop_cons_absent rt ds m s tr hn hs]
      exact ih _ _ _ (hks_setFlag_absent m s (some rt) 2 HKS)

theorem routesDesiredLoop_hks (ds : List IPNet) (m : List (RKey × Nat)) (s : List RKey)
    (tr : List RMut) (HKS : ∀ k, (lookupFlag m k).isSome = true ↔ k ∈ s) :
    ∀ k, (lookupFlag (routesDesiredLoop ds m s tr).1 k).isSome = true ↔
      k ∈ (routesDesiredLoop ds m s tr).2.kern := by
  induction ds generalizing m s tr with
  | nil => simpa [routesDesiredLoop] using HKS
  | cons rt ds ih =>
    by_cases hp : (lookupFlag m (some rt)).isSome = true
    · rw [routesDesiredLoop_cons_present rt ds m s tr hp]
      exact ih _ _ _ (hks_setFlag_present m s (some rt) 2 HKS hp)
    · have hn : lookupFlag m (some rt) = none := Option.not_isSome_iff_eq_none.mp hp
      have hs : some rt ∉ s := fun hc => hp ((HKS (some rt)).mpr hc)
      rw [routesDesiredLoop_cons_absent rt ds m s tr hn hs]
      exact ih _ _ _ (hks_setFlag_absent m s (some rt) 2 HKS)

theorem routesDesiredLoop_kern_mem (ds : List IPNet) (m : List (RKey × Nat)) (s : List RKey)
    (tr : List RMut) (HKS : ∀ k, (lookupFlag m k).isSome = true ↔ k ∈ s) :
    ∀ k, k ∈ (routesDesiredLoop ds m s tr).2.kern ↔ k ∈ s ∨ k ∈ ds.map some := by
  induction ds generalizing m s tr with
  | nil => simp [routesDesiredLoop]
  | cons rt ds ih =>
    intro k
    by_cases hp : (lookupFlag m (some rt)).isSome = true
    · rw [routesDesiredLoop_cons_present rt ds m s tr hp]
      rw [ih _ _ _ (hks_setFlag_present m s (some rt) 2 HKS hp) k]
      have ha : some rt ∈ s := (HKS (some rt)).mp hp
      simp only [List.map_cons, List.mem_cons]
      constructor
      · rintro (h | h)
        · exact Or.inl h
        · exact Or.inr (Or.inr h)
      · rintro (h | h | h)
        · exact Or.inl h
        · subst h; exact Or.inl ha
        · exact Or.inr h
    · have hn : lookupFlag m (some rt) = none := Option.not_isSome_iff_eq_none.mp hp
      have hs : some rt ∉ s := fun hc => hp ((HKS (some rt)).mpr hc)
      rw [routesDesiredLoop_cons_absent rt ds m s tr hn hs]
      rw [ih _ _ _ (hks_setFlag_absent m s (some rt) 2 HKS) k]
      simp only [List.mem_append, List.mem_singleton, List.map_cons, List.mem_cons]
      tauto

theorem routesDesiredLoop_lookup_two (ds : List IPNet) (m : List (RKey × Nat))
    (s : List RKey) (tr : List RMut)
    (HKS : ∀ k, (lookupFlag m k).isSome = true ↔ k ∈ s) :
    ∀ k, lookupFlag (routesDesiredLoop ds m s tr).1 k = some 2 ↔
      (lookupFlag m k = some 2 ∨ k ∈ ds.map some) := by
  induction ds generalizing m s tr with
  | nil => simp [routesDesiredLoop]
  | cons rt ds ih =>
    intro k
    by_cases hp : (lookupFlag m (some rt)).isSome = true
    · rw [routesDesiredLoop_cons_present rt ds m s tr hp]
      rw [ih _ _ _ (hks_setFlag_present m s (some rt) 2 HKS hp) k]
      by_cases hka : k = some rt
      · subst hka
        simp [lookupFlag_setFlag_self]
      · rw [lookupFlag_setFlag_ne m (some rt) k 2 hka]
        simp only [List.map_cons, List.mem_cons]
        constructor
        · rintro (h | h)
          · exact Or.inl h
          · exact Or.inr (Or.inr h)
        · rintro (h | h | h)
          · exact Or.inl h
          · exact absurd h hka
          · exact Or.inr h
    · have hn : lookupFlag m (some rt) = none := Option.not_isSome_iff_eq_none.mp hp
      have hs : some rt ∉ s := fun hc => hp ((HKS (some rt)).mpr hc)
      rw [routesDesiredLoop_cons_absent rt ds m s tr hn hs]
      rw [ih _ _ _ (hks_setFlag_absent m s (some rt) 2 HKS) k]
      by_cases hka : k = some rt
      · subst hka
        simp [lookupFlag_setFlag_self]
      · rw [lookupFlag_setFlag_ne m (some rt) k 2 hka]
        simp only [List.map_cons, List.mem_cons]
        constructor
        · rintro (h | h)
          · exact Or.inl h
          · exact Or.inr (Or.inr h)
        · rintro (h | h | h)
          · exact Or.inl h
          · exact absurd h hka
          · exact Or.inr h

theorem routesDesiredLoop_noop (ds : List IPNet) (m : List (RKey × Nat)) (s : List RKey)
    (tr : List RMut) (h : ∀ rt ∈ ds, (lookupFlag m (some rt)).isSome = true) :
    (routesDesiredLoop ds m s tr).2 = ⟨s, tr, true⟩ := by
  induction ds generalizing m with
  | nil => simp [routesDesiredLoop]
  | cons rt ds ih =>
    have hp : (lookupFlag m (some rt)).isSome = true := h rt (List.mem_cons_self rt ds)
    rw [routesDesiredLoop_cons_present rt ds m s tr hp]
    exact ih _ fun b hb =>
      isSome_lookupFlag_setFlag m (some b) (some rt) 2 (h b (List.mem_cons_of_mem rt hb))

theorem routesDesiredLoop_mkeys_nodup (ds : List IPNet) (m : List (RKey × Nat))
    (s : List RKey) (tr : List RMut) (h : (mkeys m).Nodup) :
    (mkeys (routesDesiredLoop ds m s tr).1).Nodup := by
  induction ds generalizing m s tr with
  | nil => simpa [routesDesiredLoop] using h
  | cons rt ds ih =>
    by_cases hp : (lookupFlag m (some rt)).isSome = true
    · rw [routesDesiredLoop_cons_present rt ds m s tr hp]
      exact ih _ _ _ (nodup_mkeys_setFlag m (some rt) 2 h)
    · have hn : lookupFlag m (some rt) = none := Option.not_isSome_iff_eq_none.mp hp
      by_cases hs : some rt ∈ s
      · simp [routesDesiredLoop, hn, hs, nodup_mkeys_setFlag m (some rt) 2 h]
      · rw [routesDesiredLoop_cons_absent rt ds m s tr hn hs]
        exact ih _ _ _ (nodup_mkeys_setFlag m (some rt) 2 h)

theorem routesDesiredLoop_values (ds : List IPNet) (m : List (RKey × Nat)) (s : List RKey)
    (tr : List RMut) (h : ∀ k p, lookupFlag m k = some p → p = 1 ∨ p = 2) :
    ∀ k p, lookupFlag (routesDesiredLoop ds m s tr).1 k = some p → p = 1 ∨ p = 2 := by
  induction ds generalizing m s tr with
  | nil => simpa [routesDesiredLoop] using h
  | cons rt ds ih =>
    have h2 : ∀ k p, lookupFlag (setFlag m (some rt) 2) k = some p → p = 1 ∨ p = 2 := by
      intro k p hk
      by_cases hka : k = some rt
      · subst hka
        rw [lookupFlag_setFlag_self] at hk
        right
        exact Option.some.injEq .. ▸ hk.symm
      · rw [lookupFlag_setFlag_ne m (some rt) k 2 hka] at hk
        exact h k p hk
    by_cases hp : (lookupFlag m (some rt)).isSome = true
    · rw [routesDesiredLoop_cons_present rt ds m s tr hp]
      exact ih _ _ _ h2
    · have hn : lookupFlag m (some rt) = none := Option.not_isSome_iff_eq_none.mp hp
      by_cases hs : some rt ∈ s
      · simp only [routesDesiredLoop, hn, Option.isSome_none, Bool.false_eq_true, if_false,
          hs, if_true]
        exact h2
      · rw [routesDesiredLoop_cons_absent rt ds m s tr hn hs]
        exact ih _ _ _ h2

theorem routesDesiredLoop_kern_nodup (ds : List IPNet) (m : List (RKey × Nat))
    (s : List RKey) (tr : List RMut)
    (HKS : ∀ k, (lookupFlag m k).isSome = true ↔ k ∈ s) (hs : s.Nodup) :
    (routesDesiredLoop ds m s tr).2.kern.Nodup := by
  induction ds generalizing m s tr with
  | nil => simpa [routesDesiredLoop] using hs
  | cons rt ds ih =>
    by_cases hp : (lookupFlag m (some rt)).isSome = true
    · rw [routesDesiredLoop_cons_present rt ds m s tr hp]
      exact ih _ _ _ (hks_setFlag_present m s (some rt) 2 HKS hp) hs
    · have hn : lookupFlag m (some rt) = none := Option.not_isSome_iff_eq_none.mp hp
      have hsn : some rt ∉ s := fun hc => hp ((HKS (some rt)).mpr hc)
      rw [routesDesiredLoop_cons_absent rt ds m s tr hn hsn]
      refine ih _ _ _ (hks_setFlag_absent m s (some rt) 2 HKS) ?_
      simp [List.nodup_append, hs, hsn]

theorem routesDesiredLoop_add_mem (ds : List IPNet) (m : List (RKey × Nat)) (s : List RKey)
    (tr : List RMut) (HKS : ∀ k, (lookupFlag m k).isSome = true ↔ k ∈ s) :
    ∀ n, RMut.add n ∈ (routesDesiredLoop ds m s tr).2.calls ↔
      (RMut.add n ∈ tr ∨ (n ∈ ds ∧ lookupFlag m (some n) = none)) := by
  induction ds generalizing m s tr with
  | nil => simp [routesDesiredLoop]
  | cons rt ds ih =>
    intro n
    by_cases hp : (lookupFlag m (some rt)).isSome = true
    · rw [routesDesiredLoop_cons_present rt ds m s tr hp]
      rw [ih _ _ _ (hks_setFlag_present m s (some rt) 2 HKS hp) n]
      by_cases hka : n = rt
      · subst hka
        simp only [lookupFlag_setFlag_self]
        constructor
        · rintro (h | ⟨-, h⟩)
          · exact Or.inl h
          · cases h
        · rintro (h | ⟨-, h⟩)
          · exact Or.inl h
          · rw [h] at hp
            simp at hp
      · have hks : (some n : RKey) ≠ some rt := fun hc => hka (Option.some.injEq .. ▸ hc)
        rw [lookupFlag_setFlag_ne m (some rt) (some n) 2 hks]
        simp only [List.mem_cons]
        constructor
        · rintro (h | ⟨h1, h2⟩)
          · exact Or.inl h
          · exact Or.inr ⟨Or.inr h1, h2⟩
        · rintro (h | ⟨h1, h2⟩)
          · exact Or.inl h
          · rcases h1 with h1 | h1
            · exact absurd h1 hka
            · exact Or.inr ⟨h1, h2⟩
    · have hn : lookupFlag m (some rt) = none := Option.not_isSome_iff_eq_none.mp hp
      have hs : some rt ∉ s := fun hc => hp ((HKS (some rt)).mpr hc)
      rw [routesDesiredLoop_cons_absent rt ds m s tr hn hs]
      rw [ih _ _ _ (hks_setFlag_absent m s (some rt) 2 HKS) n]
      by_cases hka : n = rt
      · subst hka
        simp [lookupFlag_setFlag_self, hn]
      · have hks : (some n : RKey) ≠ some rt := fun hc => hka (Option.some.injEq .. ▸ hc)
        rw [lookupFlag_setFlag_ne m (some rt) (some n) 2 hks]
        have hne : RMut.add n ≠ RMut.add rt := fun hc => hka (RMut.add.injEq .. ▸ hc)
        simp only [List.mem_append, List.mem_singleton, List.mem_cons, hne]
        tauto

theorem routesDesiredLoop_del_mem (ds : List IPNet) (m : List (RKey × Nat)) (s : List RKey)
    (tr : List RMut) :
    ∀ n, RMut.del n ∈ (routesDesiredLoop ds m s tr).2.calls ↔ RMut.del n ∈ tr := by
  induction ds generalizing m s tr with
  | nil => simp [routesDesiredLoop]
  | cons rt ds ih =>
    intro n
    by_cases hp : (lookupFlag m (some rt)).isSome = true
    · rw [routesDesiredLoop_cons_present rt ds m s tr hp]
      exact ih _ _ _ n
    · have hn : lookupFlag m (some rt) = none := Option.not_isSome_iff_eq_none.mp hp
      by_cases hs : some rt ∈ s
      · simp [routesDesiredLoop, hn, hs]
      · rw [routesDesiredLoop_cons_absent rt ds m s tr hn hs]
        rw [ih _ _ _ n]
        simp

/-! ## Lemmas about the `syncRoutes` cleanup loop -/

theorem routesCleanupLoop_cons_none (p0 : Nat) (m : List (RKey × Nat)) (s : List RKey)
    (tr : List RMut) :
    routesCleanupLoop ((none, p0) :: m) s tr = ⟨s, tr, false⟩ := by
  simp [routesCleanupLoop, parseCIDR]

theorem routesCleanupLoop_cons_skip (n0 : IPNet) (p0 : Nat) (m : List (RKey × Nat))
    (s : List RKey) (tr : List RMut) (h0 : ¬p0 < 2) :
    routesCleanupLoop ((some n0, p0) :: m) s tr = routesCleanupLoop m s tr := by
  simp [routesCleanupLoop, parseCIDR, h0]

theorem routesCleanupLoop_cons_del (n0 : IPNet) (p0 : Nat) (m : List (RKey × Nat))
    (s : List RKey) (tr : List RMut) (h0 : p0 < 2) (hcan : n0.maskNet = n0)
    (hin : some n0 ∈ s) :
    routesCleanupLoop ((some n0, p0) :: m) s tr =
      routesCleanupLoop m (removeKey s (some n0)) (tr ++ [RMut.del n0]) := by
  simp [routesCleanupLoop, parseCIDR, h0, hcan, hin]

theorem routesCleanupLoop_spec (m : List (RKey × Nat)) (s : List RKey) (tr : List RMut)
    (hN : (mkeys m).Nodup) (hsN : s.Nodup)
    (hflag : ∀ k p, (k, p) ∈ m → p < 2 → ∃ n, k = some n ∧ n.maskNet = n ∧ k ∈ s)
    (hkey : ∀ k p, (k, p) ∈ m → ∃ n, k = some n) :
    (routesCleanupLoop m s tr).ok = true ∧
    (∀ k, k ∈ (routesCleanupLoop m s tr).kern ↔ (k ∈ s ∧ ¬∃ p, (k, p) ∈ m ∧ p < 2)) ∧
    (∀ n, RMut.del n ∈ (routesCleanupLoop m s tr).calls ↔
      (RMut.del n ∈ tr ∨ ∃ p, ((some n : RKey), p) ∈ m ∧ p < 2)) ∧
    (∀ n, RMut.add n ∈ (routesCleanupLoop m s tr).calls ↔ RMut.add n ∈ tr) := by
  induction m generalizing s tr with
  | nil => simp [routesCleanupLoop]
  | cons kv m ih =>
    obtain ⟨k0, p0⟩ := kv
    obtain ⟨n0, hn0⟩ := hkey k0 p0 (List.mem_cons_self _ _)
    subst hn0
    have hN1 : (some n0 : RKey) ∉ mkeys m := by
      have := hN
      simp only [mkeys, List.map_cons, List.nodup_cons] at this
      exact this.1
    have hN2 : (mkeys m).Nodup := by
      have := hN
      simp only [mkeys, List.map_cons, List.nodup_cons] at this
      exact this.2
    have hkne : ∀ k (p : Nat), (k, p) ∈ m → k ≠ some n0 := by
      intro k p hk hc
      subst hc
      exact hN1 (by simp only [mkeys]; exact List.mem_map_of_mem Prod.fst hk)
    by_cases h0 : p0 < 2
    · have hci : n0.maskNet = n0 ∧ (some n0 : RKey) ∈ s := by
        obtain ⟨n0', heq, hc, hi⟩ := hflag _ _ (List.mem_cons_self _ _) h0
        have hnn : n0' = n0 := Option.some.injEq .. ▸ heq.symm
        subst hnn
        exact ⟨hc, hi⟩
      obtain ⟨hcan, hins⟩ := hci
      rw [routesCleanupLoop_cons_del n0 p0 m s tr h0 hcan hins]
      have hflag2 : ∀ k p, (k, p) ∈ m → p < 2 →
          ∃ n, k = some n ∧ n.maskNet = n ∧ k ∈ removeKey s (some n0) := by
        intro k p hk hp
        obtain ⟨n, hkn, hcn, hin⟩ := hflag k p (List.mem_cons_of_mem _ hk) hp
        exact ⟨n, hkn, hcn,
          (mem_removeKey_of_ne s (some n0) k (hkne k p hk)).mpr hin⟩
      have hkey2 : ∀ k p, (k, p) ∈ m → ∃ n, k = some n :=
        fun k p hk => hkey k p (List.mem_cons_of_mem _ hk)
      obtain ⟨ih1, ih2, ih3, ih4⟩ :=
        ih (removeKey s (some n0)) (tr ++ [RMut.del n0]) hN2
          (nodup_removeKey s (some n0) hsN) hflag2 hkey2
      refine ⟨ih1, ?_, ?_, ?_⟩
      · intro k
        rw [ih2 k]
        by_cases hkn0 : k = some n0
        · subst hkn0
          constructor
          · rintro ⟨h1, -⟩
            exact absurd h1 (not_mem_removeKey_self s (some n0) hsN)
          · rintro ⟨-, h2⟩
            exact absurd ⟨p0, List.mem_cons_self _ _, h0⟩ h2
        · rw [mem_removeKey_of_ne s (some n0) k hkn0]
          constructor
          · rintro ⟨h1, h2⟩
            refine ⟨h1, ?_⟩
            rintro ⟨p, hp, hpl⟩
            rcases List.mem_cons.mp hp with hp1 | hp1
            · exact hkn0 (congrArg Prod.fst hp1)
            · exact h2 ⟨p, hp1, hpl⟩
          · rintro ⟨h1, h2⟩
            refine ⟨h1, ?_⟩
            rintro ⟨p, hp, hpl⟩
            exact h2 ⟨p, List.mem_cons_of_mem _ hp, hpl⟩
      · intro n
        rw [ih3 n]
        by_cases hnn : n = n0
        · subst hnn
          simp only [List.mem_append, List.mem_singleton]
          constructor
          · intro _
            exact Or.inr ⟨p0, List.mem_cons_self _ _, h0⟩
          · intro _
            exact Or.inl (Or.inr trivial)
        · have hne2 : RMut.del n ≠ RMut.del n0 := fun hc => hnn (RMut.del.injEq .. ▸ hc)
          simp only [List.mem_append, List.mem_singleton, hne2]
          constructor
          · rintro ((h | h) | ⟨p, hp, hpl⟩)
            · exact Or.inl h
            · cases h
            · exact Or.inr ⟨p, List.mem_cons_of_mem _ hp, hpl⟩
          · rintro (h | ⟨p, hp, hpl⟩)
            · exact Or.inl (Or.inl h)
            · rcases List.mem_cons.mp hp with hp1 | hp1
              · have : (some n : RKey) = some n0 := congrArg Prod.fst hp1
                exact absurd (Option.some.injEq .. ▸ this) hnn
              · exact Or.inr ⟨p, hp1, hpl⟩
      · intro n
        rw [ih4 n]
        simp
    · rw [routesCleanupLoop_cons_skip n0 p0 m s tr h0]
      have hflag2 : ∀ k p, (k, p) ∈ m → p < 2 → ∃ n, k = some n ∧ n.maskNet = n ∧ k ∈ s :=
        fun k p hk hp => hflag k p (List.mem_cons_of_mem _ hk) hp
      have hkey2 : ∀ k p, (k, p) ∈ m → ∃ n, k = some n :=
        fun k p hk => hkey k p (List.mem_cons_of_mem _ hk)
      obtain ⟨ih1, ih2, ih3, ih4⟩ := ih s tr hN2 hsN hflag2 hkey2
      refine ⟨ih1, ?_, ?_, ih4⟩
      · intro k
        rw [ih2 k]
        constructor
        · rintro ⟨h1, h2⟩
          refine ⟨h1, ?_⟩
          rintro ⟨p, hp, hpl⟩
          rcases List.mem_cons.mp hp with hp1 | hp1
          · have hpp : p = p0 := congrArg Prod.snd hp1
            subst hpp
            exact h0 hpl
          · exact h2 ⟨p, hp1, hpl⟩
        · rintro ⟨h1, h2⟩
          exact ⟨h1, fun ⟨p, hp, hpl⟩ => h2 ⟨p, List.mem_cons_of_mem _ hp, hpl⟩⟩
      · intro n
        rw [ih3 n]
        constructor
        · rintro (h | ⟨p, hp, hpl⟩)
          · exact Or.inl h
          · exact Or.inr ⟨p, List.mem_cons_of_mem _ hp, hpl⟩
        · rintro (h | ⟨p, hp, hpl⟩)
          · exact Or.inl h
          · rcases List.mem_cons.mp hp with hp1 | hp1
            · have hpp : p = p0 := congrArg Prod.snd hp1
              subst hpp
              exact absurd hpl h0
            · exact Or.inr ⟨p, hp1, hpl⟩

theorem routesCleanupLoop_none_err (m : List (RKey × Nat)) (s : List RKey) (tr : List RMut)
    (h : (none : RKey) ∈ mkeys m) :
    (routesCleanupLoop m s tr).ok = false ∧
      ((none : RKey) ∈ s → (none : RKey) ∈ (routesCleanupLoop m s tr).kern) := by
  induction m generalizing s tr with
  | nil => simp [mkeys] at h
  | cons kv m ih =>
    obtain ⟨k0, p0⟩ := kv
    cases k0 with
    | none =>
      rw [routesCleanupLoop_cons_none p0 m s tr]
      exact ⟨rfl, fun hh => hh⟩
    | some n0 =>
      have hm : (none : RKey) ∈ mkeys m := by
        have := h
        simp only [mkeys, List.map_cons, List.mem_cons] at this
        rcases this with h1 | h1
        · cases h1
        · exact h1
      by_cases h0 : p0 < 2
      · by_cases hin : (some n0.maskNet : RKey) ∈ s
        · rw [show routesCleanupLoop ((some n0, p0) :: m) s tr =
              routesCleanupLoop m (removeKey s (some n0.maskNet)) (tr ++ [RMut.del n0.maskNet])
              from by simp [routesCleanupLoop, parseCIDR, h0, hin]]
          obtain ⟨ihe, ihk⟩ := ih (removeKey s (some n0.maskNet)) (tr ++ [RMut.del n0.maskNet]) hm
          refine ⟨ihe, fun hns => ihk ?_⟩
          exact (mem_removeKey_of_ne s (some n0.maskNet) none (by simp)).mpr hns
        · rw [show routesCleanupLoop ((some n0, p0) :: m) s tr =
              ⟨s, tr ++ [RMut.del n0.maskNet], false⟩ from by
            simp [routesCleanupLoop, parseCIDR, h0, hin]]
          exact ⟨rfl, fun hh => hh⟩
      · rw [routesCleanupLoop_cons_skip n0 p0 m s tr h0]
        exact ih s tr hm

theorem routesCleanupLoop_noop (m : List (RKey × Nat)) (s : List RKey) (tr : List RMut)
    (h : ∀ k p, (k, p) ∈ m → ¬p < 2 ∧ ∃ n, k = some n) :
    routesCleanupLoop m s tr = ⟨s, tr, true⟩ := by
  induction m with
  | nil => simp [routesCleanupLoop]
  | cons kv m ih =>
    obtain ⟨k0, p0⟩ := kv
    obtain ⟨h0, n0, hn0⟩ := h k0 p0 (List.mem_cons_self _ _)
    subst hn0
    rw [routesCleanupLoop_cons_skip n0 p0 m s tr h0]
    exact ih fun k p hk => h k p (List.mem_cons_of_mem _ hk)

/-! ## `syncRoutes`: end-to-end lemmas -/

theorem syncRoutes_eq (s : List RKey) (peers : List WgPeer) :
    syncRoutes s peers =
      routesCleanupLoop (routesDesiredLoop (desiredRoutes peers) (initFlags s) s []).1
        (routesDesiredLoop (desiredRoutes peers) (initFlags s) s []).2.kern
        (routesDesiredLoop (desiredRoutes peers) (initFlags s) s []).2.calls := by
  have hok := routesDesiredLoop_ok (desiredRoutes peers) (initFlags s) s [] (initFlags_hks s)
  simp only [syncRoutes]
  rw [if_pos hok]

theorem syncRoutes_flag_char (s : List RKey) (peers : List WgPeer)
    (hc : ∀ k ∈ s, ∃ n, k = some n ∧ n.maskNet = n) :
    ∀ k, (∃ p, (k, p) ∈ (routesDesiredLoop (desiredRoutes peers) (initFlags s) s []).1 ∧
        p < 2) ↔ (k ∈ s ∧ k ∉ (desiredRoutes peers).map some) := by
  intro k
  have hN : (mkeys (routesDesiredLoop (desiredRoutes peers) (initFlags s) s []).1).Nodup :=
    routesDesiredLoop_mkeys_nodup (desiredRoutes peers) (initFlags s) s [] (nodup_mkeys_initFlags s)
  constructor
  · rintro ⟨p, hp, hpl⟩
    have hl : lookupFlag (routesDesiredLoop (desiredRoutes peers) (initFlags s) s []).1 k =
        some p := (lookupFlag_eq_some_iff _ k p hN).mpr hp
    have hval : p = 1 ∨ p = 2 :=
      routesDesiredLoop_values (desiredRoutes peers) (initFlags s) s [] (initFlags_values s) k p hl
    have hp1 : p = 1 := by omega
    subst hp1
    have hnot2 : k ∉ (desiredRoutes peers).map some := by
      intro hds
      have h2 := (routesDesiredLoop_lookup_two (desiredRoutes peers) (initFlags s) s [] (initFlags_hks s) k).mpr
        (Or.inr hds)
      rw [hl] at h2
      have : (1 : Nat) = 2 := Option.some.injEq .. ▸ h2
      omega
    have hisome : (lookupFlag (routesDesiredLoop (desiredRoutes peers) (initFlags s) s []).1
        k).isSome = true := by rw [hl]; rfl
    have hkern := (routesDesiredLoop_hks (desiredRoutes peers) (initFlags s) s [] (initFlags_hks s) k).mp hisome
    rcases (routesDesiredLoop_kern_mem (desiredRoutes peers) (initFlags s) s [] (initFlags_hks s) k).mp hkern
      with h1 | h1
    · exact ⟨h1, hnot2⟩
    · exact absurd h1 hnot2
  · rintro ⟨h1, h2⟩
    have hkern := (routesDesiredLoop_kern_mem (desiredRoutes peers) (initFlags s) s [] (initFlags_hks s) k).mpr
      (Or.inl h1)
    have hisome := (routesDesiredLoop_hks (desiredRoutes peers) (initFlags s) s [] (initFlags_hks s) k).mpr hkern
    obtain ⟨p, hp⟩ := Option.isSome_iff_exists.mp hisome
    have hval : p = 1 ∨ p = 2 :=
      routesDesiredLoop_values (desiredRoutes peers) (initFlags s) s [] (initFlags_values s) k p hp
    have hne2 : p ≠ 2 := by
      intro hp2
      subst hp2
      rcases (routesDesiredLoop_lookup_two (desiredRoutes peers) (initFlags s) s [] (initFlags_hks s) k).mp hp
        with hx | hx
      · exact initFlags_not_two s k hx
      · exact h2 hx
    refine ⟨p, (lookupFlag_eq_some_iff _ k p hN).mp hp, by omega⟩

theorem syncRoutes_spec (s : List RKey) (peers : List WgPeer)
    (hc : ∀ k ∈ s, ∃ n, k = some n ∧ n.maskNet = n) (hn : s.Nodup) :
    (syncRoutes s peers).ok = true ∧
    (∀ k, k ∈ (syncRoutes s peers).kern ↔ k ∈ (desiredRoutes peers).map some) ∧
    (∀ rt, RMut.add rt ∈ (syncRoutes s peers).calls ↔
      (rt ∈ desiredRoutes peers ∧ some rt ∉ s)) ∧
    (∀ rt, RMut.del rt ∈ (syncRoutes s peers).calls ↔
      (some rt ∈ s ∧ rt ∉ desiredRoutes peers)) := by
  have hN : (mkeys (routesDesiredLoop (desiredRoutes peers) (initFlags s) s []).1).Nodup :=
    routesDesiredLoop_mkeys_nodup (desiredRoutes peers) (initFlags s) s [] (nodup_mkeys_initFlags s)
  have hkernN : (routesDesiredLoop (desiredRoutes peers) (initFlags s) s []).2.kern.Nodup :=
    routesDesiredLoop_kern_nodup (desiredRoutes peers) (initFlags s) s [] (initFlags_hks s) hn
  have hchar := syncRoutes_flag_char s peers hc
  have hflag : ∀ k p, (k, p) ∈ (routesDesiredLoop (desiredRoutes peers) (initFlags s) s []).1 →
      p < 2 → ∃ n, k = some n ∧ n.maskNet = n ∧
        k ∈ (routesDesiredLoop (desiredRoutes peers) (initFlags s) s []).2.kern := by
    intro k p hk hpl
    obtain ⟨h1, _⟩ := (hchar k).mp ⟨p, hk, hpl⟩
    obtain ⟨n, hkn, hcn⟩ := hc k h1
    exact ⟨n, hkn, hcn, (routesDesiredLoop_kern_mem (desiredRoutes peers) (initFlags s) s []
      (initFlags_hks s) k).mpr (Or.inl h1)⟩
  have hkey : ∀ k p, (k, p) ∈ (routesDesiredLoop (desiredRoutes peers) (initFlags s) s []).1 →
      ∃ n, k = some n := by
    intro k p hk
    have hl : lookupFlag (routesDesiredLoop (desiredRoutes peers) (initFlags s) s []).1 k =
        some p := (lookupFlag_eq_some_iff _ k p hN).mpr hk
    have hisome : (lookupFlag (routesDesiredLoop (desiredRoutes peers) (initFlags s) s []).1
        k).isSome = true := by rw [hl]; rfl
    have hkern := (routesDesiredLoop_hks (desiredRoutes peers) (initFlags s) s [] (initFlags_hks s) k).mp hisome
    rcases (routesDesiredLoop_kern_mem (desiredRoutes peers) (initFlags s) s [] (initFlags_hks s) k).mp hkern
      with h1 | h1
    · obtain ⟨n, hkn, -⟩ := hc k h1
      exact ⟨n, hkn⟩
    · obtain ⟨n, -, hkn⟩ := List.mem_map.mp h1
      exact ⟨n, hkn.symm⟩
  obtain ⟨sp1, sp2, sp3, sp4⟩ := routesCleanupLoop_spec
    (routesDesiredLoop (desiredRoutes peers) (initFlags s) s []).1
    (routesDesiredLoop (desiredRoutes peers) (initFlags s) s []).2.kern
    (routesDesiredLoop (desiredRoutes peers) (initFlags s) s []).2.calls
    hN hkernN hflag hkey
  rw [syncRoutes_eq]
  refine ⟨sp1, ?_, ?_, ?_⟩
  · intro k
    rw [sp2 k]
    rw [routesDesiredLoop_kern_mem (desiredRoutes peers) (initFlags s) s [] (initFlags_hks s) k]
    constructor
    · rintro ⟨h1 | h1, h2⟩
      · by_contra hds
        exact h2 ((hchar k).mpr ⟨h1, hds⟩)
      · exact h1
    · intro h1
      refine ⟨Or.inr h1, fun hf => ?_⟩
      exact ((hchar k).mp hf).2 h1
  · intro rt
    rw [sp4 rt]
    rw [routesDesiredLoop_add_mem (desiredRoutes peers) (initFlags s) s [] (initFlags_hks s) rt]
    rw [lookupFlag_initFlags]
    constructor
    · rintro (h | ⟨h1, h2⟩)
      · cases h
      · by_cases hin : (some rt : RKey) ∈ s
        · rw [if_pos hin] at h2
          cases h2
        · exact ⟨h1, hin⟩
    · rintro ⟨h1, h2⟩
      exact Or.inr ⟨h1, by rw [if_neg h2]⟩
  · intro rt
    rw [sp3 rt]
    constructor
    · rintro (h | hf)
      · rw [routesDesiredLoop_del_mem (desiredRoutes peers) (initFlags s) s [] rt] at h
        cases h
      · have := (hchar (some rt)).mp hf
        refine ⟨this.1, fun hds => this.2 ?_⟩
        exact List.mem_map_of_mem some hds
    · rintro ⟨h1, h2⟩
      refine Or.inr ((hchar (some rt)).mpr ⟨h1, fun hds => ?_⟩)
      obtain ⟨n, hn1, hn2⟩ := List.mem_map.mp hds
      have : n = rt := Option.some.injEq .. ▸ hn2
      subst this
      exact h2 hn1

theorem syncRoutes_second_noop (s : List RKey) (peers : List WgPeer)
    (hc : ∀ k ∈ s, ∃ n, k = some n ∧ n.maskNet = n) (hn : s.Nodup) :
    syncRoutes (syncRoutes s peers).kern peers = ⟨(syncRoutes s peers).kern, [], true⟩ := by
  obtain ⟨-, hkern, -, -⟩ := syncRoutes_spec s peers hc hn
  set s1 := (syncRoutes s peers).kern with hs1
  have hnoop : (routesDesiredLoop (desiredRoutes peers) (initFlags s1) s1 []).2 =
      ⟨s1, [], true⟩ := by
    refine routesDesiredLoop_noop (desiredRoutes peers) (initFlags s1) s1 [] ?_
    intro rt hrt
    exact (initFlags_hks s1 (some rt)).mpr ((hkern (some rt)).mpr
      (List.mem_map_of_mem some hrt))
  have hN : (mkeys (routesDesiredLoop (desiredRoutes peers) (initFlags s1) s1 []).1).Nodup :=
    routesDesiredLoop_mkeys_nodup (desiredRoutes peers) (initFlags s1) s1 [] (nodup_mkeys_initFlags s1)
  have hsched : ∀ k p,
      (k, p) ∈ (routesDesiredLoop (desiredRoutes peers) (initFlags s1) s1 []).1 →
      ¬p < 2 ∧ ∃ n, k = some n := by
    intro k p hk
    have hl : lookupFlag (routesDesiredLoop (desiredRoutes peers) (initFlags s1) s1 []).1 k =
        some p := (lookupFlag_eq_some_iff _ k p hN).mpr hk
    have hisome : (lookupFlag (routesDesiredLoop (desiredRoutes peers) (initFlags s1) s1 []).1
        k).isSome = true := by rw [hl]; rfl
    have hkin := (routesDesiredLoop_hks (desiredRoutes peers) (initFlags s1) s1 [] (initFlags_hks s1) k).mp hisome
    rw [hnoop] at hkin
    have hkds : k ∈ (desiredRoutes peers).map some := (hkern k).mp hkin
    have h2 := (routesDesiredLoop_lookup_two (desiredRoutes peers) (initFlags s1) s1 [] (initFlags_hks s1) k).mpr
      (Or.inr hkds)
    rw [hl] at h2
    have hp2 : p = 2 := Option.some.injEq .. ▸ h2
    obtain ⟨n, -, hkn⟩ := List.mem_map.mp hkds
    exact ⟨by omega, n, hkn.symm⟩
  rw [syncRoutes_eq s1 peers, hnoop]
  exact routesCleanupLoop_noop _ _ _ hsched

theorem syncRoutes_none_err (s : List RKey) (peers : List WgPeer) (h : (none : RKey) ∈ s) :
    (syncRoutes s peers).ok = false ∧ (none : RKey) ∈ (syncRoutes s peers).kern := by
  have hkern := (routesDesiredLoop_kern_mem (desiredRoutes peers) (initFlags s) s []
    (initFlags_hks s) none).mpr (Or.inl h)
  have hisome := (routesDesiredLoop_hks (desiredRoutes peers) (initFlags s) s []
    (initFlags_hks s) none).mpr hkern
  have hmk : (none : RKey) ∈
      mkeys (routesDesiredLoop (desiredRoutes peers) (initFlags s) s []).1 :=
    (lookupFlag_isSome_iff _ none).mp hisome
  obtain ⟨he, hk⟩ := routesCleanupLoop_none_err
    (routesDesiredLoop (desiredRoutes peers) (initFlags s) s []).1
    (routesDesiredLoop (desiredRoutes peers) (initFlags s) s []).2.kern
    (routesDesiredLoop (desiredRoutes peers) (initFlags s) s []).2.calls hmk
  rw [syncRoutes_eq]
  exact ⟨he, hk hkern⟩

/-! ## Lemmas about `Up` -/

theorem up_spec_err {E : Type} (env : UpEnv E) : (Up env).2 = upSpecError env := by
  obtain ⟨l1, la, l2, su, wn, cf, sa, sr⟩ := env
  cases l1 <;> cases la <;> cases l2 <;> cases su <;> cases wn <;> cases cf <;> cases sa <;>
    cases sr <;> rfl

theorem up_ordered {E : Type} (env : UpEnv E) :
    List.Pairwise (fun a b => upStepPos a < upStepPos b) (Up env).1 := by
  obtain ⟨l1, la, l2, su, wn, cf, sa, sr⟩ := env
  cases l1 <;> cases la <;> cases l2 <;> cases su <;> cases wn <;> cases cf <;> cases sa <;>
    cases sr <;> simp only [Up, upTail] <;> decide

theorem up_short_circuit {E : Type} (env : UpEnv E) (e : E)
    (h1 : env.lookup1 = Lookup1.found ∨
      (env.lookup1 = Lookup1.notFound ∧ env.linkAddRes = none ∧ env.lookup2Res = none))
    (h2 : env.setUpRes = none) (h3 : env.wgNewRes = none)
    (h4 : env.configureRes = some e) :
    (Up env).2 = some e ∧ UpStep.syncAddrStep ∉ (Up env).1 ∧
      UpStep.syncRoutesStep ∉ (Up env).1 := by
  obtain ⟨l1, la, l2, su, wn, cf, sa, sr⟩ := env
  simp only at h1 h2 h3 h4
  subst h2; subst h3; subst h4
  rcases h1 with h1 | ⟨h1, hla, hl2⟩
  · subst h1
    refine ⟨rfl, ?_, ?_⟩ <;> simp [Up, upTail]
  · subst h1; subst hla; subst hl2
    refine ⟨rfl, ?_, ?_⟩ <;> simp [Up, upTail]

theorem up_fail_lookup {E : Type} (env : UpEnv E) (e : E)
    (h : env.lookup1 = Lookup1.failed e) : Up env = ([UpStep.linkByName], some e) := by
  obtain ⟨l1, la, l2, su, wn, cf, sa, sr⟩ := env
  have h' : l1 = Lookup1.failed e := h
  subst h'
  rfl

theorem up_fail_linkAdd {E : Type} (env : UpEnv E) (e : E)
    (h1 : env.lookup1 = Lookup1.notFound) (h2 : env.linkAddRes = some e) :
    Up env = ([UpStep.linkByName, UpStep.linkAdd], some e) := by
  obtain ⟨l1, la, l2, su, wn, cf, sa, sr⟩ := env
  have h1' : l1 = Lookup1.notFound := h1
  have h2' : la = some e := h2
  subst h1'; subst h2'
  rfl

theorem up_fail_lookup2 {E : Type} (env : UpEnv E) (e : E)
    (h1 : env.lookup1 = Lookup1.notFound) (h2 : env.linkAddRes = none)
    (h3 : env.lookup2Res = some e) :
    Up env = ([UpStep.linkByName, UpStep.linkAdd, UpStep.execIpLinkAdd,
      UpStep.linkByName2], some e) := by
  obtain ⟨l1, la, l2, su, wn, cf, sa, sr⟩ := env
  have h1' : l1 = Lookup1.notFound := h1
  have h2' : la = none := h2
  have h3' : l2 = some e := h3
  subst h1'; subst h2'; subst h3'
  rfl

theorem up_found_eq {E : Type} (env : UpEnv E) (h : env.lookup1 = Lookup1.found) :
    Up env = upTail env [UpStep.linkByName] := by
  obtain ⟨l1, la, l2, su, wn, cf, sa, sr⟩ := env
  have h' : l1 = Lookup1.found := h
  subst h'
  rfl

theorem up_created_eq {E : Type} (env : UpEnv E) (h1 : env.lookup1 = Lookup1.notFound)
    (h2 : env.linkAddRes = none) (h3 : env.lookup2Res = none) :
    Up env = upTail env [UpStep.linkByName, UpStep.linkAdd, UpStep.execIpLinkAdd,
      UpStep.linkByName2] := by
  obtain ⟨l1, la, l2, su, wn, cf, sa, sr⟩ := env
  have h1' : l1 = Lookup1.notFound := h1
  have h2' : la = none := h2
  have h3' : l2 = none := h3
  subst h1'; subst h2'; subst h3'
  rfl

theorem upTail_fail_setUp {E : Type} (env : UpEnv E) (pre : List UpStep) (e : E)
    (h : env.setUpRes = some e) : upTail env pre = (pre ++ [UpStep.linkSetUp], some e) := by
  obtain ⟨l1, la, l2, su, wn, cf, sa, sr⟩ := env
  have h' : su = some e := h
  subst h'
  rfl

theorem upTail_fail_wgNew {E : Type} (env : UpEnv E) (pre : List UpStep) (e : E)
    (h1 : env.setUpRes = none) (h2 : env.wgNewRes = some e) :
    upTail env pre = (pre ++ [UpStep.linkSetUp, UpStep.wgNew], some e) := by
  obtain ⟨l1, la, l2, su, wn, cf, sa, sr⟩ := env
  have h1' : su = none := h1
  have h2' : wn = some e := h2
  subst h1'; subst h2'
  rfl

theorem upTail_fail_configure {E : Type} (env : UpEnv E) (pre : List UpStep) (e : E)
    (h1 : env.setUpRes = none) (h2 : env.wgNewRes = none)
    (h3 : env.configureRes = some e) :
    upTail env pre =
      (pre ++ [UpStep.linkSetUp, UpStep.wgNew, UpStep.configureDevice], some e) := by
  obtain ⟨l1, la, l2, su, wn, cf, sa, sr⟩ := env
  have h1' : su = none := h1
  have h2' : wn = none := h2
  have h3' : cf = some e := h3
  subst h1'; subst h2'; subst h3'
  rfl

theorem upTail_fail_syncAddr {E : Type} (env : UpEnv E) (pre : List UpStep) (e : E)
    (h1 : env.setUpRes = none) (h2 : env.wgNewRes = none) (h3 : env.configureRes = none)
    (h4 : env.syncAddrRes = some e) :
    upTail env pre = (pre ++ [UpStep.linkSetUp, UpStep.wgNew, UpStep.configureDevice,
      UpStep.syncAddrStep], some e) := by
  obtain ⟨l1, la, l2, su, wn, cf, sa, sr⟩ := env
  have h1' : su = none := h1
  have h2' : wn = none := h2
  have h3' : cf = none := h3
  have h4' : sa = some e := h4
  subst h1'; subst h2'; subst h3'; subst h4'
  rfl

theorem upTail_fail_syncRoutes {E : Type} (env : UpEnv E) (pre : List UpStep) (e : E)
    (h1 : env.setUpRes = none) (h2 : env.wgNewRes = none) (h3 : env.configureRes = none)
    (h4 : env.syncAddrRes = none) (h5 : env.syncRoutesRes = some e) :
    upTail env pre = (pre ++ [UpStep.linkSetUp, UpStep.wgNew, UpStep.configureDevice,
      UpStep.syncAddrStep, UpStep.syncRoutesStep], some e) := by
  obtain ⟨l1, la, l2, su, wn, cf, sa, sr⟩ := env
  have h1' : su = none := h1
  have h2' : wn = none := h2
  have h3' : cf = none := h3
  have h4' : sa = none := h4
  have h5' : sr = some e := h5
  subst h1'; subst h2'; subst h3'; subst h4'; subst h5'
  rfl

/-! ## Lemmas about the base64 codec -/

theorem b64chars_length : b64chars.length = 64 := by decide

theorem b64d_b64c : ∀ n, n < 64 → b64d (b64c n) = some n := by decide

theorem b64c_small : ∀ n, n < 64 →
    b64c n ≠ '\x0a' ∧ b64c n ≠ '\x0d' ∧ b64c n ≠ '=' := by decide

theorem b64c_large (n : Nat) (h : 64 ≤ n) : b64c n = 'A' := by
  unfold b64c
  exact List.getD_eq_default b64chars 'A' (le_trans (le_of_eq b64chars_length) h)

theorem b64c_props (n : Nat) : b64c n ≠ '\x0a' ∧ b64c n ≠ '\x0d' ∧ b64c n ≠ '=' := by
  by_cases h : n < 64
  · exact b64c_small n h
  · rw [b64c_large n (by omega)]
    refine ⟨?_, ?_, ?_⟩ <;> decide

theorem crlfFree_b64c (n : Nat) :
    (decide ¬(b64c n = '\x0a' ∨ b64c n = '\x0d')) = true := by
  obtain ⟨h1, h2, -⟩ := b64c_props n
  exact decide_eq_true fun hc => hc.elim h1 h2

theorem crlfFree_pad : (decide ¬(('=' : Char) = '\x0a' ∨ ('=' : Char) = '\x0d')) = true := by
  decide

theorem b64encode_filter (k : List Nat) :
    ((b64encode k).filter fun c => decide ¬(c = '\x0a' ∨ c = '\x0d')) = b64encode k := by
  refine List.filter_eq_self.mpr ?_
  intro c hc
  induction k using b64encode.induct with
  | case1 => cases hc
  | case2 b1 =>
    simp only [b64encode, List.mem_cons, List.not_mem_nil, or_false] at hc
    rcases hc with h | h | h | h <;> subst h
    · exact crlfFree_b64c _
    · exact crlfFree_b64c _
    · exact crlfFree_pad
    · exact crlfFree_pad
  | case3 b1 b2 =>
    simp only [b64encode, List.mem_cons, List.not_mem_nil, or_false] at hc
    rcases hc with h | h | h | h <;> subst h
    · exact crlfFree_b64c _
    · exact crlfFree_b64c _
    · exact crlfFree_b64c _
    · exact crlfFree_pad
  | case4 b1 b2 b3 bs ih =>
    simp only [b64encode, List.mem_cons] at hc
    rcases hc with h | h | h | h | h
    · subst h; exact crlfFree_b64c _
    · subst h; exact crlfFree_b64c _
    · subst h; exact crlfFree_b64c _
    · subst h; exact crlfFree_b64c _
    · exact ih h

theorem b64decodeAux_encode (k : List Nat) (h : ∀ b ∈ k, b < 256) :
    b64decodeAux (b64encode k) = some k := by
  induction k using b64encode.induct with
  | case1 => rfl
  | case2 b1 =>
    have h1 : b1 < 256 := h b1 (by simp)
    have e1 := b64d_b64c (b1 / 4) (by omega)
    have e2 := b64d_b64c (b1 % 4 * 16) (by omega)
    have hv : b1 / 4 * 4 + b1 % 4 * 16 / 16 = b1 := by omega
    simp [b64encode, b64decodeAux, e1, e2, hv]
    omega
  | case3 b1 b2 =>
    have h1 : b1 < 256 := h b1 (by simp)
    have h2 : b2 < 256 := h b2 (by simp)
    have e1 := b64d_b64c (b1 / 4) (by omega)
    have e2 := b64d_b64c (b1 % 4 * 16 + b2 / 16) (by omega)
    have e3 := b64d_b64c (b2 % 16 * 4) (by omega)
    have hne := (b64c_props (b2 % 16 * 4)).2.2
    have hv1 : b1 / 4 * 4 + (b1 % 4 * 16 + b2 / 16) / 16 = b1 := by omega
    have hv2 : (b1 % 4 * 16 + b2 / 16) % 16 * 16 + b2 % 16 * 4 / 4 = b2 := by omega
    simp [b64encode, b64decodeAux, e1, e2, e3, hne, hv1, hv2]
    omega
  | case4 b1 b2 b3 bs ih =>
    have h1 : b1 < 256 := h b1 (by simp)
    have h2 : b2 < 256 := h b2 (by simp)
    have h3 : b3 < 256 := h b3 (by simp)
    have hrest : ∀ b ∈ bs, b < 256 := fun b hb => h b (by simp [hb])
    have e1 := b64d_b64c (b1 / 4) (by omega)
    have e2 := b64d_b64c (b1 % 4 * 16 + b2 / 16) (by omega)
    have e3 := b64d_b64c (b2 % 16 * 4 + b3 / 64) (by omega)
    have e4 := b64d_b64c (b3 % 64) (by omega)
    have hne := (b64c_props (b3 % 64)).2.2
    have hv1 : b1 / 4 * 4 + (b1 % 4 * 16 + b2 / 16) / 16 = b1 := by omega
    have hv2 : (b1 % 4 * 16 + b2 / 16) % 16 * 16 + (b2 % 16 * 4 + b3 / 64) / 4 = b2 := by
      omega
    have hv3 : (b2 % 16 * 4 + b3 / 64) % 4 * 64 + b3 % 64 = b3 := by omega
    simp [b64encode, b64decodeAux, b64chunk, e1, e2, e3, e4, hne, hv1, hv2, hv3, ih hrest]

theorem b64_roundtrip (k : List Nat) (h : ∀ b ∈ k, b < 256) :
    b64decode (b64encode k) = some k := by
  unfold b64decode
  rw [b64encode_filter]
  exact b64decodeAux_encode k h

/-! ## The template never parses -/

theorem cfgTemplate_eq_none : cfgTemplate = none := by rfl

/-! ## Claim theorems -/

/-- C1: the claim states that, with desired `[10.0.0.2/24]` and observed
`[10.0.0.2/24, 192.168.1.1/24]`, `syncAddress` issues exactly one kernel
delete (for 192.168.1.1/24) and zero adds.  The code instead calls
`netlink.AddrAdd` in its removal path: on this input it issues exactly one
kernel ADD for 192.168.1.1/24, no delete at all, the add fails with the
kernel's duplicate-address error, the address stays on the interface, and
`syncAddress` returns that error. -/
theorem c1_syncAddress_scenarioB_add_instead_of_delete :
    syncAddress [n10, n192] [n10] = ⟨[n10, n192], [AMut.add n192], false⟩ := by
  decide

/-- C2: when the observed kernel route list is well-formed (each destination
a masked network, no duplicates — the only lists the kernel produces) and
`syncRoutes` returns successfully, the final route set is exactly the union
of all peers' allowed-IP prefixes keyed by destination: duplicates across
peers collapse, the adds issued are exactly the missing routes, and the
deletes issued are exactly the observed routes outside the union. -/
theorem c2_syncRoutes_converges (s : List RKey) (peers : List WgPeer)
    (hc : ∀ k ∈ s, ∃ n, k = some n ∧ n.maskNet = n) (hn : s.Nodup) :
    ((syncRoutes s peers).ok = true →
      ∀ k, k ∈ (syncRoutes s peers).kern ↔ k ∈ (desiredRoutes peers).map some) ∧
    (∀ rt, RMut.add rt ∈ (syncRoutes s peers).calls ↔
      (rt ∈ desiredRoutes peers ∧ some rt ∉ s)) ∧
    (∀ rt, RMut.del rt ∈ (syncRoutes s peers).calls ↔
      (some rt ∈ s ∧ rt ∉ desiredRoutes peers)) := by
  obtain ⟨-, h2, h3, h4⟩ := syncRoutes_spec s peers hc hn
  exact ⟨fun _ => h2, h3, h4⟩

/-- C2 witness: Scenario C — two peers with allowed-IPs `[10.0.0.0/24]` and
`[10.0.0.0/24, 10.1.0.0/24]` against an empty observed set. -/
theorem c2_syncRoutes_converges_witness :
    (syncRoutes [] demoPeers).ok = true ∧
    (some n1000 ∈ (syncRoutes [] demoPeers).kern) ∧
    (some n1010 ∈ (syncRoutes [] demoPeers).kern) ∧
    RMut.add n1010 ∈ (syncRoutes [] demoPeers).calls := by
  refine ⟨by decide, ?_, ?_, ?_⟩
  · exact ((c2_syncRoutes_converges [] demoPeers (by simp) (by simp)).1 (by decide)
      (some n1000)).mpr (by decide)
  · exact ((c2_syncRoutes_converges [] demoPeers (by simp) (by simp)).1 (by decide)
      (some n1010)).mpr (by decide)
  · exact ((c2_syncRoutes_converges [] demoPeers (by simp) (by simp)).2.1 n1010).mpr
      (by decide)

/-- C3: after a successful first run of address sync and route sync (over a
well-formed observed route list), running each a second time with the
desired state unchanged issues zero kernel mutations and succeeds. -/
theorem c3_sync_second_run_no_mutations (sA dsA : List IPNet) (sR : List RKey)
    (peers : List WgPeer) (hA : (syncAddress sA dsA).ok = true)
    (hc : ∀ k ∈ sR, ∃ n, k = some n ∧ n.maskNet = n) (hn : sR.Nodup)
    (hR : (syncRoutes sR peers).ok = true) :
    (syncAddress (syncAddress sA dsA).kern dsA).calls = [] ∧
    (syncAddress (syncAddress sA dsA).kern dsA).ok = true ∧
    (syncRoutes (syncRoutes sR peers).kern peers).calls = [] ∧
    (syncRoutes (syncRoutes sR peers).kern peers).ok = true := by
  have h1 := syncAddress_second_noop sA dsA hA
  have h2 := syncRoutes_second_noop sR peers hc hn
  rw [h1, h2]
  exact ⟨rfl, rfl, rfl, rfl⟩

/-- C3 witness: a concrete first run that adds one address and syncs two
peer routes over a one-route observed set. -/
theorem c3_sync_second_run_no_mutations_witness :
    (syncAddress [n10] [n10, n192]).ok = true ∧
    (syncAddress (syncAddress [n10] [n10, n192]).kern [n10, n192]).calls = [] ∧
    (syncRoutes [some n19200] demoPeers).ok = true ∧
    (syncRoutes (syncRoutes [some n19200] demoPeers).kern demoPeers).calls = [] := by
  have hc : ∀ k ∈ [(some n19200 : RKey)], ∃ n, k = some n ∧ n.maskNet = n := by
    intro k hk
    simp only [List.mem_singleton] at hk
    subst hk
    exact ⟨n19200, rfl, by decide⟩
  have h := c3_sync_second_run_no_mutations [n10] [n10, n192] [some n19200] demoPeers
    (by decide) hc (by decide) (by decide)
  exact ⟨by decide, h.1, by decide, h.2.2.1⟩

/-- C4: `Up` issues its external calls in the fixed source order, and for
every phase — first lookup, link creation, second lookup, set-up, client
creation, device configuration, address sync, route sync — a failure makes
`Up` return that phase's error unchanged with no later phase invoked: the
early phases are characterized by their exact trace-and-error result, and
each later phase's failure excludes every subsequent step from the trace;
in particular a failed device-configuration push runs neither reconciler.
The returned error always equals the spec-side first-failing-phase error. -/
theorem c4_up_order_and_short_circuit {E : Type} (env : UpEnv E) :
    ((Up env).2 = upSpecError env) ∧
    List.Pairwise (fun a b => upStepPos a < upStepPos b) (Up env).1 ∧
    (∀ e, env.lookup1 = Lookup1.failed e → Up env = ([UpStep.linkByName], some e)) ∧
    (∀ e, env.lookup1 = Lookup1.notFound → env.linkAddRes = some e →
      Up env = ([UpStep.linkByName, UpStep.linkAdd], some e)) ∧
    (∀ e, env.lookup1 = Lookup1.notFound → env.linkAddRes = none →
      env.lookup2Res = some e →
      Up env = ([UpStep.linkByName, UpStep.linkAdd, UpStep.execIpLinkAdd,
        UpStep.linkByName2], some e)) ∧
    (∀ e, ensureOkEnv env → env.setUpRes = some e →
      (Up env).2 = some e ∧ UpStep.wgNew ∉ (Up env).1 ∧
      UpStep.configureDevice ∉ (Up env).1 ∧ UpStep.syncAddrStep ∉ (Up env).1 ∧
      UpStep.syncRoutesStep ∉ (Up env).1) ∧
    (∀ e, ensureOkEnv env → env.setUpRes = none → env.wgNewRes = some e →
      (Up env).2 = some e ∧ UpStep.configureDevice ∉ (Up env).1 ∧
      UpStep.syncAddrStep ∉ (Up env).1 ∧ UpStep.syncRoutesStep ∉ (Up env).1) ∧
    (∀ e, ensureOkEnv env → env.setUpRes = none → env.wgNewRes = none →
      env.configureRes = some e →
      (Up env).2 = some e ∧ UpStep.syncAddrStep ∉ (Up env).1 ∧
      UpStep.syncRoutesStep ∉ (Up env).1) ∧
    (∀ e, ensureOkEnv env → env.setUpRes = none → env.wgNewRes = none →
      env.configureRes = none → env.syncAddrRes = some e →
      (Up env).2 = some e ∧ UpStep.syncRoutesStep ∉ (Up env).1) ∧
    (∀ e, ensureOkEnv env → env.setUpRes = none → env.wgNewRes = none →
      env.configureRes = none → env.syncAddrRes = none → env.syncRoutesRes = some e →
      (Up env).2 = some e) := by
  refine ⟨up_spec_err env, up_ordered env, ?_, ?_, ?_, ?_, ?_, ?_, ?_, ?_⟩
  · intro e h
    exact up_fail_lookup env e h
  · intro e h1 h2
    exact up_fail_linkAdd env e h1 h2
  · intro e h1 h2 h3
    exact up_fail_lookup2 env e h1 h2 h3
  · intro e h1 h2
    unfold ensureOkEnv at h1
    rcases h1 with hf | ⟨hnf, hla, hl2⟩
    · rw [up_found_eq env hf, upTail_fail_setUp env _ e h2]
      exact ⟨rfl, by simp, by simp, by simp, by simp⟩
    · rw [up_created_eq env hnf hla hl2, upTail_fail_setUp env _ e h2]
      exact ⟨rfl, by simp, by simp, by simp, by simp⟩
  · intro e h1 h2 h3
    unfold ensureOkEnv at h1
    rcases h1 with hf | ⟨hnf, hla, hl2⟩
    · rw [up_found_eq env hf, upTail_fail_wgNew env _ e h2 h3]
      exact ⟨rfl, by simp, by simp, by simp⟩
    · rw [up_created_eq env hnf hla hl2, upTail_fail_wgNew env _ e h2 h3]
      exact ⟨rfl, by simp, by simp, by simp⟩
  · intro e h1 h2 h3 h4
    unfold ensureOkEnv at h1
    rcases h1 with hf | ⟨hnf, hla, hl2⟩
    · rw [up_found_eq env hf, upTail_fail_configure env _ e h2 h3 h4]
      exact ⟨rfl, by simp, by simp⟩
    · rw [up_created_eq env hnf hla hl2, upTail_fail_configure env _ e h2 h3 h4]
      exact ⟨rfl, by simp, by simp⟩
  · intro e h1 h2 h3 h4 h5
    unfold ensureOkEnv at h1
    rcases h1 with hf | ⟨hnf, hla, hl2⟩
    · rw [up_found_eq env hf, upTail_fail_syncAddr env _ e h2 h3 h4 h5]
      exact ⟨rfl, by simp⟩
    · rw [up_created_eq env hnf hla hl2, upTail_fail_syncAddr env _ e h2 h3 h4 h5]
      exact ⟨rfl, by simp⟩
  · intro e h1 h2 h3 h4 h5 h6
    unfold ensureOkEnv at h1
    rcases h1 with hf | ⟨hnf, hla, hl2⟩
    · rw [up_found_eq env hf, upTail_fail_syncRoutes env _ e h2 h3 h4 h5 h6]
    · rw [up_created_eq env hnf hla hl2, upTail_fail_syncRoutes env _ e h2 h3 h4 h5 h6]

/-- C4 witness: Scenario D — the device-configuration push fails with error
42 on an existing link; `Up` returns 42 and no reconciler ran. -/
theorem c4_up_order_and_short_circuit_witness :
    (Up (⟨Lookup1.found, none, none, none, none, some 42, none, none⟩ : UpEnv Nat)).2 =
      some 42 ∧
    UpStep.syncAddrStep ∉
      (Up (⟨Lookup1.found, none, none, none, none, some 42, none, none⟩ : UpEnv Nat)).1 ∧
    UpStep.syncRoutesStep ∉
      (Up (⟨Lookup1.found, none, none, none, none, some 42, none, none⟩ : UpEnv Nat)).1 :=
  (c4_up_order_and_short_circuit
    (⟨Lookup1.found, none, none, none, none, some 42, none, none⟩ : UpEnv Nat)).2.2.2.2.2.2.2.1
    42 (Or.inl rfl) rfl rfl rfl

/-- C5 counterexample: the claim states `ParseKey` errors whenever the
decoded length differs from the 32-byte key size, in particular on
truncated input; but `"AAAA"` decodes to only 3 bytes and `ParseKey`
succeeds on it. -/
theorem c5_parseKey_counterexample :
    b64decode (("AAAA").toList) = some [0, 0, 0] ∧
    (ParseKey (("AAAA").toList)).isSome = true := by
  decide

/-- C5 amended: `ParseKey` succeeds exactly on valid base64 text — the
decoded length is never checked against the 32-byte key size: a decode
shorter than the key is zero-padded into the remaining key bytes, and a
decode longer than the key is truncated to its first 32 bytes. -/
theorem c5_parseKey_amended (s : List Char) :
    ((ParseKey s).isSome = true ↔ (b64decode s).isSome = true) ∧
    (∀ bs, b64decode s = some bs → bs.length ≤ keySize →
      ParseKey s = some (bs ++ List.replicate (keySize - bs.length) 0)) ∧
    (∀ bs, b64decode s = some bs → keySize ≤ bs.length →
      ParseKey s = some (bs.take keySize)) := by
  refine ⟨?_, ?_, ?_⟩
  · cases h : b64decode s
    · simp [ParseKey, h]
    · simp [ParseKey, h]
  · intro bs h hlen
    simp only [ParseKey, h]
    rw [List.take_append_eq_append_take, List.take_of_length_le hlen, List.take_replicate,
      Nat.min_eq_left (Nat.sub_le keySize bs.length)]
  · intro bs h hlen
    simp only [ParseKey, h]
    rw [List.take_append_eq_append_take, Nat.sub_eq_zero_of_le hlen, List.take_zero,
      List.append_nil]

/-- C5 amended, witness: the truncated input `"AAAA"` (3 decoded bytes)
yields the all-zero key without error; 48 characters of base64 (36 decoded
bytes) succeed with the decode truncated to 32 bytes; the non-base64 input
`"!"` yields an error. -/
theorem c5_parseKey_amended_witness :
    ParseKey (("AAAA").toList) = some (List.replicate 32 0) ∧
    ParseKey (("AAAAAAAAAAAAAAAAAAAAAAAAAAAAAAAAAAAAAAAAAAAAAAAA").toList) =
      some (List.replicate 32 0) ∧
    (ParseKey (("!").toList)).isSome = false := by
  refine ⟨?_, ?_, ?_⟩
  · have h := (c5_parseKey_amended (("AAAA").toList)).2.1 [0, 0, 0] (by decide) (by decide)
    rw [h]
    decide
  · have h := (c5_parseKey_amended
      (("AAAAAAAAAAAAAAAAAAAAAAAAAAAAAAAAAAAAAAAAAAAAAAAA").toList)).2.2
      (List.replicate 36 0) (by decide) (by decide)
    rw [h]
    decide
  · cases hx : (ParseKey (("!").toList)).isSome
    · rfl
    · exact absurd ((c5_parseKey_amended (("!").toList)).1.mp hx) (by decide)

/-- C6: for every 32-byte key, encoding with `serializeKey` and then
decoding with `ParseKey` succeeds and returns the original key. -/
theorem c6_parseKey_serializeKey_roundtrip (k : List Nat) (hlen : k.length = keySize)
    (hb : ∀ b ∈ k, b < 256) : ParseKey (serializeKey k) = some k := by
  simp only [serializeKey, ParseKey, b64_roundtrip k hb]
  congr 1
  rw [← hlen, List.take_left]

/-- C6 witness: the all-zero 32-byte key round-trips. -/
theorem c6_parseKey_serializeKey_roundtrip_witness :
    ParseKey (serializeKey (List.replicate 32 0)) = some (List.replicate 32 0) :=
  c6_parseKey_serializeKey_roundtrip (List.replicate 32 0) (by decide) (by decide)

/-- C7: the claim states that `MarshalText` succeeds on a configuration
with MTU 0, Table 0 and empty hook strings, omitting the `MTU =`,
`Table =` and hook lines.  In the code the template literal does not parse
(`range :=` declares no variable), `template.Must` panics during package
initialization, and `MarshalText` on exactly such a configuration can never
return text. -/
theorem c7_marshalText_fails_on_omission_config :
    MarshalText ⟨List.replicate 32 0, none, [], [], [], 0, 0, [], [], [], [], false⟩ =
      none := by
  simp [MarshalText, cfgTemplate_eq_none]

/-- C8: a desired address repeating an earlier entry's canonical key is
treated as already kept: dropping the duplicate changes nothing (same
kernel state, same calls, same result — so no failure is caused by it and
it is never scheduled for removal), and at most one add is ever issued per
canonical key; no delete is ever issued by `syncAddress` at all. -/
theorem c8_syncAddress_duplicate_desired (s d1 : List IPNet) (a : IPNet) (d2 : List IPNet)
    (h : a ∈ d1) :
    syncAddress s (d1 ++ a :: d2) = syncAddress s (d1 ++ d2) ∧
    (∀ k, ((syncAddress s (d1 ++ a :: d2)).calls).count (AMut.add k) ≤ 1) ∧
    (∀ k, AMut.del k ∉ (syncAddress s (d1 ++ a :: d2)).calls) :=
  ⟨syncAddress_dup s d1 a d2 h, fun k => syncAddress_count_le_one s _ k,
    fun k => syncAddress_no_del s _ k⟩

/-- C8 witness: desired `[10.0.0.2/24, 10.0.0.2/24]` behaves exactly like
`[10.0.0.2/24]`, with one add issued. -/
theorem c8_syncAddress_duplicate_desired_witness :
    syncAddress [] ([n10] ++ n10 :: []) = syncAddress [] ([n10] ++ []) ∧
    ((syncAddress [] ([n10] ++ n10 :: [])).calls).count (AMut.add n10) ≤ 1 := by
  have h := c8_syncAddress_duplicate_desired [] [n10] n10 [] (by decide)
  exact ⟨h.1, h.2.1 n10⟩

/-- C9: the template literal is not valid `text/template` syntax (its
`range :=` pipelines declare no variable before `:=`), so the package-level
`template.Must` panics at initialization — modelled as `cfgTemplate = none`
— and consequently `MarshalText` and `String` can never return rendered
text for any configuration. -/
theorem c9_template_invalid_never_renders (cfg : Config) :
    cfgTemplate = none ∧ MarshalText cfg = none ∧ configStringRender cfg = none := by
  refine ⟨cfgTemplate_eq_none, ?_, ?_⟩
  · simp [MarshalText, cfgTemplate_eq_none]
  · simp [configStringRender, MarshalText, cfgTemplate_eq_none]

/-- C10: if the observed route list contains a route with a nil destination
(the `"<nil>"` key), `syncRoutes` always returns an error from the cleanup
phase — `net.ParseCIDR` runs on every observed key before the kept flag is
checked and cannot parse that key — and that route is never deleted: it is
still in the kernel route set when the function returns. -/
theorem c10_syncRoutes_nil_destination (s : List RKey) (peers : List WgPeer)
    (h : (none : RKey) ∈ s) :
    (syncRoutes s peers).ok = false ∧ (none : RKey) ∈ (syncRoutes s peers).kern :=
  syncRoutes_none_err s peers h

/-- C10 witness: a single observed default route (nil destination) makes
`syncRoutes` fail and survives. -/
theorem c10_syncRoutes_nil_destination_witness :
    (syncRoutes [none] demoPeers).ok = false ∧
      (none : RKey) ∈ (syncRoutes [none] demoPeers).kern :=
  c10_syncRoutes_nil_destination [none] demoPeers (by decide)
